import Mathlib

/-! # httpsdomain.go: record filtering, collection and certificate probing

A shallow embedding of `src/httpsdomain.go`.  Go strings are modelled by Lean
`String`s (sequences of code points); every pattern the program searches for is
ASCII, so prefix, suffix and substring tests on code points agree with Go's
byte-wise tests on valid UTF-8.  Log output is not modelled.

The package-level variables and the three files form a `State`; every call that
leaves the program (providers, file system, network, notifier) is answered by an
`Env`.  The unbounded `for` loops that page through the Aliyun lists take an
iteration bound (`fuel`) and return `none` when it is reached.  The page number
and `httpsDomainSum` are Go `int`s; they count pages and probe tasks, stay far
below `2^63`, and are natural numbers here.  The goroutines of
`ExpirationHttpsDomain` only meet in the section guarded by the mutex, so a run of
the probe tasks is the sequence of these sections in some order, a permutation of
the tasks spawned.
-/

namespace HttpsDomain

/-! ## Go's `strings` package -/

/-- Go `strings.HasPrefix(s, prefix)`. -/
def stringsHasPrefix (s pre : String) : Bool :=
  pre.data.isPrefixOf s.data

/-- Go `strings.HasSuffix(s, suffix)`. -/
def stringsHasSuffix (s suf : String) : Bool :=
  suf.data.isSuffixOf s.data

/-- Scan of `strings.Index`: is `sub` a prefix of `s` at some offset. -/
def indexFrom (sub : List Char) : List Char → Bool
  | [] => sub.isPrefixOf []
  | c :: cs => sub.isPrefixOf (c :: cs) || indexFrom sub cs

/-- Go `strings.Contains(s, substr)`, that is `strings.Index(s, substr) >= 0`. -/
def stringsContains (s substr : String) : Bool :=
  indexFrom substr.data s.data

/-! ## Records returned by the providers -/

/-- The fields of an Aliyun `DescribeDomainRecords` record the program reads
(`RecordType` is the field `Type`). -/
structure AliyunRecord where
  RR : String
  RecordType : String
  Status : String
  DomainName : String
  deriving DecidableEq, Repr

/-- The fields of a Tencent `DescribeRecordList` record the program reads
(`RecordType` is the field `Type`). -/
structure TencentRecord where
  Name : String
  RecordType : String
  Status : String
  deriving DecidableEq, Repr

/-- The condition of the `if` in the record loop of `AliyunDescribeDomainRecords`. -/
def aliyunRecordFilter (record : AliyunRecord) : Bool :=
  (record.RecordType == "A" || record.RecordType == "CNAME") &&
  record.Status == "ENABLE" &&
  record.RR != "@" &&
  record.RR != "test" && record.RR != "dev" &&
  !stringsContains record.RR ".test-" &&
  !stringsContains record.RR ".dev-" &&
  !stringsContains record.RR "-test-" &&
  !stringsContains record.RR "-dev-" &&
  !stringsContains record.RR "-test." &&
  !stringsContains record.RR "-dev." &&
  !stringsHasSuffix record.RR "-test" &&
  !stringsHasSuffix record.RR "-dev" &&
  !stringsHasPrefix record.RR "test." &&
  !stringsHasPrefix record.RR "test-" &&
  !stringsHasPrefix record.RR "dev." &&
  !stringsHasPrefix record.RR "dev-"

/-- The condition of the `if` in the record loop of `TencentDescribeDomainRecords`. -/
def tencentRecordFilter (record : TencentRecord) : Bool :=
  (record.RecordType == "A" || record.RecordType == "CNAME") &&
  record.Status == "ENABLE" &&
  record.Name != "@" &&
  record.Name != "test" && record.Name != "dev" &&
  !stringsContains record.Name ".test-" &&
  !stringsContains record.Name ".dev-" &&
  !stringsContains record.Name "-test-" &&
  !stringsContains record.Name "-dev-" &&
  !stringsContains record.Name "-test." &&
  !stringsContains record.Name "-dev." &&
  !stringsHasSuffix record.Name "-test" &&
  !stringsHasSuffix record.Name "-dev" &&
  !stringsHasPrefix record.Name "test." &&
  !stringsHasPrefix record.Name "test-" &&
  !stringsHasPrefix record.Name "dev." &&
  !stringsHasPrefix record.Name "dev-"

/-! ## Errors, the step-status map and the observable trace -/

/-- A non-nil Go `error` value.  The only distinction the program makes is whether
the dynamic type is `*errors.TencentCloudSDKError`. -/
inductive GoError where
  | tencentCloudSDK (msg : String)
  | other (msg : String)
  deriving DecidableEq, Repr

/-- The type assertion `err.(*errors.TencentCloudSDKError)`: its `ok` result. -/
def GoError.isTencentCloudSDKError : GoError → Bool
  | .tencentCloudSDK _ => true
  | .other _ => false

/-- The value a `panic` carries. -/
inductive PanicValue where
  | err (e : GoError)
  | indexOutOfRange
  deriving DecidableEq, Repr

/-- Go `map[string][]string`: a key is absent (`none`) or bound to a slice. -/
abbrev StatusMap := String → Option (List String)

/-- Go `m[key]`: the zero value (a nil slice) when the key is absent. -/
def StatusMap.lookup (m : StatusMap) (key : String) : List String :=
  (m key).getD []

/-- Go `m[key] = value`. -/
def StatusMap.set (m : StatusMap) (key : String) (value : List String) : StatusMap :=
  fun k => if k = key then some value else m k

def successText : String := "执行完成"
def failText : String := "执行失败"
def successColor : String := "green"
def failColor : String := "red"

/-- What an observer of one run sees, in order. -/
inductive Event where
  /-- a pipeline function is entered -/
  | call (fn : String)
  /-- a pipeline function returns `err` -/
  | ret (fn : String) (err : Option GoError)
  /-- Go `client.DescribeDomains` is called (Aliyun) -/
  | aliyunDomainsRequest (pageNumber pageSize : Nat)
  /-- Go `client.DescribeDomainList` is called (Tencent) -/
  | tencentDomainListRequest
  /-- Go `client.DescribeDomainRecords` is called (Aliyun) -/
  | aliyunRecordsRequest (domainName : String) (pageNumber pageSize : Nat)
  /-- Go `client.DescribeRecordList` is called (Tencent) -/
  | tencentRecordListRequest (domain : String) (offset limit : Nat)
  /-- Go `templateFile.WriteString(text)` is called -/
  | templateWrite (text : String)
  /-- Go `NoticeWeCom(httpsDomainSum, setpStatusMap)` is called -/
  | notice (httpsDomainSum : Nat) (setpStatusMap : StatusMap)

/-- Is the event a call of the notifier. -/
def Event.isNotice : Event → Bool
  | .notice _ _ => true
  | _ => false

/-- Is the event the return of a pipeline function. -/
def Event.isRet : Event → Bool
  | .ret _ _ => true
  | _ => false

/-- Is the event the entry of a pipeline function. -/
def Event.isCall : Event → Bool
  | .call _ => true
  | _ => false

/-- The package-level variables, the three files on disk and the trace of the run.
`httpsDomainSum` is a Go `int`; it counts probe tasks and cannot reach `2^63`. -/
structure State where
  aliyunDomainSlice : List String
  tencentDomainSlice : List String
  recordSlice : List String
  setpStatusMap : StatusMap
  httpsDomainSum : Nat
  /-- content of `domains.txt` -/
  domainsTxt : String
  /-- content of `httpsdomain.txt` -/
  httpsdomainTxt : String
  /-- content of `aliyun-tencent-httpsdomain.yml` -/
  templateYml : String
  /-- number of `WriteString` calls made on `domains.txt` so far -/
  domainsTxtWrites : Nat
  trace : List Event

/-- Append an event to the trace. -/
def State.log (st : State) (e : Event) : State :=
  { st with trace := st.trace ++ [e] }

/-- Go `setpStatusMap[key] = value`. -/
def State.setStatus (st : State) (key : String) (value : List String) : State :=
  { st with setpStatusMap := st.setpStatusMap.set key value }

/-- The package-level variable initialisers, on a disk holding the given files. -/
def start (domainsTxt httpsdomainTxt templateYml : String) : State where
  aliyunDomainSlice := []
  tencentDomainSlice := []
  recordSlice := []
  setpStatusMap := fun _ => none
  httpsDomainSum := 0
  domainsTxt := domainsTxt
  httpsdomainTxt := httpsdomainTxt
  templateYml := templateYml
  domainsTxtWrites := 0
  trace := []

/-- The part of `init` that touches the modelled state: the step-status map. -/
def init (st : State) : State :=
  let st := { st with setpStatusMap := fun _ => none }
  let st := st.setStatus "aliyunInitStatus" ["执行失败", "red"]
  let st := st.setStatus "aliyunDescribeDomainsStatus" ["执行失败", "red"]
  let st := st.setStatus "aliyunDescribeDomainRecordsStatus" ["执行失败", "red"]
  let st := st.setStatus "tencentInitStatus" ["执行失败", "red"]
  let st := st.setStatus "tencentDescribeDomainsStatus" ["执行失败", "red"]
  let st := st.setStatus "tencentDescribeDomainRecordsStatus" ["执行失败", "red"]
  let st := st.setStatus "expirationHttpsDomainStatus" ["执行失败", "red"]
  let st := st.setStatus "reloadPrometheusStatus" ["执行失败", "red"]
  let st := st.setStatus "aliyunInitStatus" ["执行失败", "red"]
  st

/-! ## The probe of one candidate -/

/-- An X.509 certificate: the field the program reads (`NotAfter`, as a timestamp). -/
structure Certificate where
  NotAfter : Int
  deriving DecidableEq, Repr

/-- The network outcome of one probe: did `net.DialTimeout` succeed, did
`tlsConn.Handshake` succeed, and `ConnectionState().PeerCertificates`. -/
structure ProbeNet where
  dialOk : Bool
  handshakeOk : Bool
  PeerCertificates : List Certificate
  deriving DecidableEq, Repr

/-- How the network part of `processDomain` ends. -/
inductive ProbeOutcome where
  /-- an early `return`: nothing is recorded -/
  | discarded
  /-- the certificate was read; `expiration` is what is logged -/
  | result (expiration : Int)
  /-- a run-time panic (index out of range) -/
  | panicked
  deriving DecidableEq, Repr

/-- The body of `processDomain` up to the critical section. -/
def probeCertificate (net : ProbeNet) : ProbeOutcome :=
  if net.dialOk = false then .discarded
  else if net.handshakeOk = false then .discarded
  else if net.PeerCertificates.length = 0 then .discarded
  else
    match net.PeerCertificates[0]? with
    | none => .panicked
    | some cert => .result cert.NotAfter

/-! ## The environment of a run -/

/-- Everything outside the program: the outcome of every call it makes. -/
structure Env where
  /-- Go `viper.ReadInConfig()` in `GetConfig` -/
  readInConfig : Option GoError
  /-- Go `alidns.NewClient(config)` in `AliyunInit` -/
  aliyunNewClient : Option GoError
  /-- Go `dnspod.NewClient(...)` in `TencentInit` -/
  tencentNewClient : Option GoError
  /-- Go `client.DescribeDomains` for a page number and a page size: the domain names -/
  aliyunDescribeDomains : Nat → Nat → Except GoError (List String)
  /-- Go `client.DescribeDomainList`: the domain names -/
  tencentDescribeDomainList : Except GoError (List String)
  /-- Go `client.DescribeDomainRecords` for a domain, a page number and a page size -/
  aliyunDescribeDomainRecords : String → Nat → Nat → Except GoError (List AliyunRecord)
  /-- Go `client.DescribeRecordList` for a domain, an offset and a limit -/
  tencentDescribeRecordList : String → Nat → Nat → Except GoError (List TencentRecord)
  /-- opening `domains.txt` for writing in `DescribeDomainRecords` -/
  createDomainsTxt : Option GoError
  /-- the `n`-th `WriteString` on `domains.txt`, for the string written -/
  writeDomainsTxt : Nat → String → Option GoError
  /-- opening `httpsdomain.txt` in `ExpirationHttpsDomain` -/
  createHttpsdomainTxt : Option GoError
  /-- opening `aliyun-tencent-httpsdomain.yml` in `ExpirationHttpsDomain` -/
  createTemplateYml : Option GoError
  /-- opening `domains.txt` for reading in `ExpirationHttpsDomain` -/
  openDomainsTxt : Option GoError
  /-- the network outcome of the probe task spawned `i`-th, for its domain -/
  probeNet : Nat → String → ProbeNet
  /-- Go `domainFile.WriteString` in the probe task spawned `i`-th -/
  writeHttpsdomainTxt : Nat → String → Option GoError
  /-- the order in which the spawned tasks pass through the critical section -/
  schedule : (tasks : List (Nat × String)) →
    { order : List (Nat × String) // order.Perm tasks }
  /-- Go `templateFile.WriteString` -/
  writeTemplateYml : String → Option GoError
  /-- the HTTP exchange of `ReloadPrometheus` -/
  reloadPrometheus : Option GoError
  /-- marshalling and posting the notification with the given content -/
  sendNotice : String → Option GoError

/-- One `domainRecordFile.WriteString(s)`; a failing write leaves the file as it was. -/
def writeDomainsTxt (env : Env) (st : State) (s : String) : State × Option GoError :=
  match env.writeDomainsTxt st.domainsTxtWrites s with
  | none =>
    ({ st with domainsTxt := st.domainsTxt ++ s,
               domainsTxtWrites := st.domainsTxtWrites + 1 }, none)
  | some e => ({ st with domainsTxtWrites := st.domainsTxtWrites + 1 }, some e)

/-! ## Stage 0 and 1: configuration and clients -/

/-- Go `GetConfig`. -/
def GetConfig (env : Env) (st : State) : State × Option GoError :=
  let st := st.log (.call "GetConfig")
  match env.readInConfig with
  | some err => (st.log (.ret "GetConfig" (some err)), some err)
  | none => (st.log (.ret "GetConfig" none), none)

/-- Go `AliyunInit`. -/
def AliyunInit (env : Env) (st : State) : State × Option GoError :=
  let st := st.log (.call "AliyunInit")
  (st.log (.ret "AliyunInit" env.aliyunNewClient), env.aliyunNewClient)

/-- Go `TencentInit`. -/
def TencentInit (env : Env) (st : State) : State × Option GoError :=
  let st := st.log (.call "TencentInit")
  (st.log (.ret "TencentInit" env.tencentNewClient), env.tencentNewClient)

/-- Go `ClientInit`. -/
def ClientInit (env : Env) (st : State) : State × Option GoError :=
  match AliyunInit env st with
  | (st, some _err) =>
    (st.setStatus "aliyunInitStatus" [failText, failColor], some _err)
  | (st, none) =>
    let st := st.setStatus "aliyunInitStatus" [successText, successColor]
    match TencentInit env st with
    | (st, some _err) =>
      (st.setStatus "tencentInitStatus" [failText, failColor], some _err)
    | (st, none) =>
      (st.setStatus "tencentInitStatus" [successText, successColor], none)

/-! ## Stage 2: the domain lists -/

/-- The `range` loop appending each domain name of a page to a slice. -/
def appendNames (slice : List String) (names : List String) : List String :=
  names.foldl (fun acc name => acc ++ [name]) slice

/-- The `for` loop of `AliyunDescribeDomains` from page `pageNumber`; `fuel` bounds
the number of iterations, `none` means the bound was reached.  The result is the
error returned. -/
def aliyunDescribeDomainsLoop (env : Env) :
    Nat → Nat → State → Option (State × Option GoError)
  | 0, _, _ => none
  | fuel + 1, pageNumber, st =>
    let pageSize := 20
    let st := st.log (.aliyunDomainsRequest pageNumber pageSize)
    match env.aliyunDescribeDomains pageNumber pageSize with
    | .error _err => some (st, some _err)
    | .ok domains =>
      if domains.length = 0 then some (st, none)
      else
        aliyunDescribeDomainsLoop env fuel (pageNumber + 1)
          { st with aliyunDomainSlice := appendNames st.aliyunDomainSlice domains }

/-- Go `AliyunDescribeDomains`. -/
def AliyunDescribeDomains (env : Env) (fuel : Nat) (st : State) :
    Option (State × Option GoError) :=
  let st := st.log (.call "AliyunDescribeDomains")
  match aliyunDescribeDomainsLoop env fuel 1 st with
  | none => none
  | some (st, err) => some (st.log (.ret "AliyunDescribeDomains" err), err)

/-- Go `TencentDescribeDomains`. -/
def TencentDescribeDomains (env : Env) (st : State) : State × Option GoError :=
  let st := st.log (.call "TencentDescribeDomains")
  let st := st.log .tencentDomainListRequest
  match env.tencentDescribeDomainList with
  | .error err => (st.log (.ret "TencentDescribeDomains" (some err)), some err)
  | .ok domainList =>
    if domainList.length = 0 then (st.log (.ret "TencentDescribeDomains" none), none)
    else
      let st := { st with tencentDomainSlice := appendNames st.tencentDomainSlice domainList }
      (st.log (.ret "TencentDescribeDomains" none), none)

/-- How a call ends: it returns an error value, it panics (the panic unwinds the
caller, running its deferred functions), or another goroutine panics and the
process exits at once. -/
inductive Ctl where
  | ret (err : Option GoError)
  | panic (v : PanicValue)
  | crash (v : PanicValue)
  deriving DecidableEq, Repr

/-- Go `DescribeDomains`. -/
def DescribeDomains (env : Env) (fuel : Nat) (st : State) : Option (State × Ctl) :=
  match AliyunDescribeDomains env fuel st with
  | none => none
  | some (st, some _err) =>
    some (st.setStatus "aliyunDescribeDomainsStatus" [failText, failColor], .panic (.err _err))
  | some (st, none) =>
    let st := st.setStatus "aliyunDescribeDomainsStatus" [successText, successColor]
    match TencentDescribeDomains env st with
    | (st, some _err) =>
      some (st.setStatus "tencentDescribeDomainsStatus" [failText, failColor],
        .panic (.err _err))
    | (st, none) =>
      some (st.setStatus "tencentDescribeDomainsStatus" [successText, successColor],
        .ret none)

/-! ## Stage 3: the records -/

/-- The body of the record loop of `AliyunDescribeDomainRecords`.  The write
error is only logged. -/
def aliyunRecordStep (env : Env) (st : State) (record : AliyunRecord) : State :=
  if aliyunRecordFilter record then
    let st := { st with recordSlice := st.recordSlice ++ [record.RR ++ "." ++ record.DomainName] }
    (writeDomainsTxt env st (record.RR ++ "." ++ record.DomainName ++ "\n")).1
  else st

/-- The record loop of `AliyunDescribeDomainRecords` over one page. -/
def aliyunRecordLoop (env : Env) (records : List AliyunRecord) (st : State) : State :=
  records.foldl (aliyunRecordStep env) st

/-- The loop `InnerLoop` of `AliyunDescribeDomainRecords` for one domain, from page
`pageNumber`; `fuel` bounds the iterations.  `some (st, none)` is `break InnerLoop`,
`some (st, some err)` is `return err`. -/
def aliyunRecordsInnerLoop (env : Env) (domainName : String) :
    Nat → Nat → State → Option (State × Option GoError)
  | 0, _, _ => none
  | fuel + 1, pageNumber, st =>
    let pageSize := 20
    let st := st.log (.aliyunRecordsRequest domainName pageNumber pageSize)
    match env.aliyunDescribeDomainRecords domainName pageNumber pageSize with
    | .error _err => some (st, some _err)
    | .ok records =>
      if records.length = 0 then some (st, none)
      else
        aliyunRecordsInnerLoop env domainName fuel (pageNumber + 1)
          (aliyunRecordLoop env records st)

/-- The loop of `AliyunDescribeDomainRecords` over the domain names. -/
def aliyunRecordsOuterLoop (env : Env) (fuel : Nat) :
    List String → State → Option (State × Option GoError)
  | [], st => some (st, none)
  | domainName :: rest, st =>
    match aliyunRecordsInnerLoop env domainName fuel 1 st with
    | none => none
    | some (st, some _err) => some (st, some _err)
    | some (st, none) => aliyunRecordsOuterLoop env fuel rest st

/-- Go `AliyunDescribeDomainRecords`. -/
def AliyunDescribeDomainRecords (env : Env) (fuel : Nat) (domains : List String)
    (st : State) : Option (State × Option GoError) :=
  let st := st.log (.call "AliyunDescribeDomainRecords")
  match aliyunRecordsOuterLoop env fuel domains st with
  | none => none
  | some (st, err) => some (st.log (.ret "AliyunDescribeDomainRecords" err), err)

/-- The body of the record loop of `TencentDescribeDomainRecords`; the second
component is the named result `_err`, which the write assigns. -/
def tencentRecordStep (env : Env) (domainName : String)
    (acc : State × Option GoError) (record : TencentRecord) : State × Option GoError :=
  if tencentRecordFilter record then
    let st := { acc.1 with recordSlice := acc.1.recordSlice ++ [record.Name ++ "." ++ domainName] }
    writeDomainsTxt env st (record.Name ++ "." ++ domainName ++ "\n")
  else acc

/-- The record loop of `TencentDescribeDomainRecords` over one response. -/
def tencentRecordLoop (env : Env) (domainName : String) (records : List TencentRecord)
    (acc : State × Option GoError) : State × Option GoError :=
  records.foldl (tencentRecordStep env domainName) acc

/-- The loop of `TencentDescribeDomainRecords` over the domain names; `_err` is the
named result, returned as it stands by the bare `return`. -/
def tencentRecordsLoop (env : Env) :
    List String → State → Option GoError → State × Option GoError
  | [], st, _ => (st, none)
  | domainName :: rest, st, _err =>
    let offset := 0
    let limit := 3000
    let st := st.log (.tencentRecordListRequest domainName offset limit)
    match env.tencentDescribeRecordList domainName offset limit with
    | .error err =>
      if err.isTencentCloudSDKError then (st, _err)
      else (st, some err)
    | .ok recordList =>
      let acc := tencentRecordLoop env domainName recordList (st, _err)
      tencentRecordsLoop env rest acc.1 acc.2

/-- Go `TencentDescribeDomainRecords`. -/
def TencentDescribeDomainRecords (env : Env) (domains : List String) (st : State) :
    State × Option GoError :=
  let st := st.log (.call "TencentDescribeDomainRecords")
  match tencentRecordsLoop env domains st none with
  | (st, err) => (st.log (.ret "TencentDescribeDomainRecords" err), err)

/-- Go `DescribeDomainRecords`. -/
def DescribeDomainRecords (env : Env) (fuel : Nat) (st : State) :
    Option (State × Option GoError) :=
  match env.createDomainsTxt with
  | some _err => some (st, some _err)
  | none =>
    let st := { st with domainsTxt := "" }
    match AliyunDescribeDomainRecords env fuel st.aliyunDomainSlice st with
    | none => none
    | some (st, some _err) =>
      some (st.setStatus "aliyunDescribeDomainRecordsStatus" [failText, failColor], some _err)
    | some (st, none) =>
      let st := st.setStatus "aliyunDescribeDomainRecordsStatus" [successText, successColor]
      match TencentDescribeDomainRecords env st.tencentDomainSlice st with
      | (st, some _err) =>
        some (st.setStatus "tencentDescribeDomainRecordsStatus" [failText, failColor],
          some _err)
      | (st, none) =>
        some (st.setStatus "tencentDescribeDomainRecordsStatus" [successText, successColor],
          none)

/-! ## Stage 4: probing -/

/-- Go `unicode.IsSpace`. -/
def unicodeIsSpace (r : Char) : Bool :=
  let n := r.toNat
  if n ≤ 0xFF then
    n = 0x09 || n = 0x0A || n = 0x0B || n = 0x0C || n = 0x0D || n = 0x20 ||
      n = 0x85 || n = 0xA0
  else
    n = 0x1680 || (0x2000 ≤ n && n ≤ 0x200A) || n = 0x2028 || n = 0x2029 ||
      n = 0x202F || n = 0x205F || n = 0x3000

/-- Go `strings.TrimSpace`. -/
def stringsTrimSpace (s : String) : String :=
  ⟨((s.data.dropWhile unicodeIsSpace).reverse.dropWhile unicodeIsSpace).reverse⟩

/-- The `dropCR` of package `bufio`. -/
def dropCR (data : List Char) : List Char :=
  if data.getLast? = some '\r' then data.dropLast else data

/-- The tokens a `bufio.Scanner` with the default split function `ScanLines` yields
on the rest of the input, `cur` being the part of the current line already read.
Every line is taken to fit the scanner's buffer. -/
def scanLinesFrom : List Char → List Char → List String
  | cur, [] => if cur.length = 0 then [] else [⟨dropCR cur⟩]
  | cur, c :: rest =>
    if c = '\n' then ⟨dropCR cur⟩ :: scanLinesFrom [] rest
    else scanLinesFrom (cur ++ [c]) rest

/-- The domains for which the scan loop of `ExpirationHttpsDomain` spawns a task. -/
def scannedDomains (domainsTxt : String) : List String :=
  ((scanLinesFrom [] domainsTxt.data).map stringsTrimSpace).filter (fun domain => domain != "")

/-- What the mutex of `ExpirationHttpsDomain` protects.  `templateString` is the
`strings.Builder`: the strings written to it so far, in order. -/
structure ProbeShared where
  httpsdomainTxt : String
  httpsDomainSum : Nat
  templateString : List String

/-- Go `Builder.String()`. -/
def builderString (chunks : List String) : String :=
  chunks.foldl (fun acc chunk => acc ++ chunk) ""

/-- The critical section of `processDomain`. -/
def recordProbe (env : Env) (task : Nat × String) (shared : ProbeShared) : ProbeShared :=
  let domain := task.2
  let shared :=
    match env.writeHttpsdomainTxt task.1 domain with
    | none => { shared with httpsdomainTxt := shared.httpsdomainTxt ++ (domain ++ "\n") }
    | some _ => shared
  let shared := { shared with httpsDomainSum := shared.httpsDomainSum + 1 }
  { shared with templateString := shared.templateString ++ ["   - https://" ++ domain ++ "\n"] }

/-- The closure `processDomain` run by the task spawned `task.1`-th for the domain
`task.2`; an error is a panic of the goroutine. -/
def processDomain (env : Env) (task : Nat × String) (shared : ProbeShared) :
    Except PanicValue ProbeShared :=
  match probeCertificate (env.probeNet task.1 task.2) with
  | .discarded => .ok shared
  | .panicked => .error .indexOutOfRange
  | .result _ => .ok (recordProbe env task shared)

/-- The tasks run to completion, passing through the critical section in the given order. -/
def runProbeTasks (env : Env) : List (Nat × String) → ProbeShared → Except PanicValue ProbeShared
  | [], shared => .ok shared
  | task :: rest, shared =>
    match processDomain env task shared with
    | .error v => .error v
    | .ok shared => runProbeTasks env rest shared

/-- Go `ExpirationHttpsDomain`.  The named result `_err` is never assigned, so every
`return _err` returns nil. -/
def ExpirationHttpsDomain (env : Env) (st : State) : State × Ctl :=
  let st := st.log (.call "ExpirationHttpsDomain")
  let _err : Option GoError := none
  match env.createHttpsdomainTxt with
  | some _ => (st.log (.ret "ExpirationHttpsDomain" _err), .ret _err)
  | none =>
    let st := { st with httpsdomainTxt := "" }
    match env.createTemplateYml with
    | some _ => (st.log (.ret "ExpirationHttpsDomain" _err), .ret _err)
    | none =>
      let st := { st with templateYml := "" }
      match env.openDomainsTxt with
      | some _ => (st.log (.ret "ExpirationHttpsDomain" _err), .ret _err)
      | none =>
        let shared : ProbeShared :=
          { httpsdomainTxt := st.httpsdomainTxt, httpsDomainSum := st.httpsDomainSum,
            templateString := ["- targets:\n"] }
        let tasks := (scannedDomains st.domainsTxt).enum
        match runProbeTasks env (env.schedule tasks).val shared with
        | .error v => (st, .crash v)
        | .ok shared =>
          let templateString := shared.templateString ++
            ["  labels:\n", "    group: web\n", "    department: test-auto\n"]
          let st := { st with httpsdomainTxt := shared.httpsdomainTxt,
                              httpsDomainSum := shared.httpsDomainSum }
          let text := builderString templateString
          let st := st.log (.templateWrite text)
          let st :=
            match env.writeTemplateYml text with
            | none => { st with templateYml := st.templateYml ++ text }
            | some _ => st
          (st.log (.ret "ExpirationHttpsDomain" none), .ret none)

/-! ## Stage 5 and the notifier -/

/-- Go `ReloadPrometheus`. -/
def ReloadPrometheus (env : Env) (st : State) : State × Option GoError :=
  let st := st.log (.call "ReloadPrometheus")
  (st.log (.ret "ReloadPrometheus" env.reloadPrometheus), env.reloadPrometheus)

/-- Go `s[i]` on a slice: `none` is the run-time panic "index out of range". -/
def sliceIndex (s : List String) (i : Nat) : Option String := s[i]?

/-- The text `<font color="%s">%s</font>` of the notification. -/
def fontTag (color text : String) : String :=
  "<font color=\"" ++ color ++ "\">" ++ text ++ "</font>"

/-- The two arguments `status[1], status[0]` of `fmt.Sprintf` for one step, placed
in `<font color="%s">%s</font>`; `none` is the panic of an index out of range. -/
def statusFont (status : List String) : Option String :=
  match sliceIndex status 1 with
  | none => none
  | some color =>
    match sliceIndex status 0 with
    | none => none
    | some text => some (fontTag color text)

/-- The closure `markdownMessage` of `NoticeWeCom`; `none` is a panic. -/
def markdownMessage (httpsDomainSum : Nat) (setpStatusMap : StatusMap) : Option String :=
  let aliyunInitStatus := setpStatusMap.lookup "aliyunInitStatus"
  let aliyunDescribeDomainsStatus := setpStatusMap.lookup "aliyunDescribeDomainsStatus"
  let aliyunDescribeDomainRecordsStatus := setpStatusMap.lookup "aliyunDescribeDomainRecordsStatus"
  let tencentInitStatus := setpStatusMap.lookup "tencentInitStatus"
  let tencentDescribeDomainsStatus := setpStatusMap.lookup "tencentDescribeDomainsStatus"
  let tencentDescribeDomainRecordsStatus := setpStatusMap.lookup "tencentDescribeDomainRecordsStatus"
  let expirationHttpsDomainStatus := setpStatusMap.lookup "expirationHttpsDomainStatus"
  let reloadPrometheusStatus := setpStatusMap.lookup "reloadPrometheusStatus"
  match [aliyunInitStatus, aliyunDescribeDomainsStatus, aliyunDescribeDomainRecordsStatus,
      tencentInitStatus, tencentDescribeDomainsStatus, tencentDescribeDomainRecordsStatus,
      expirationHttpsDomainStatus, reloadPrometheusStatus].mapM statusFont with
  | some [a, b, c, d, e, f, g, h] =>
    some (String.join
      ["本次已同步HTTPS域名<font color=\"yellow\">", toString httpsDomainSum,
       "条</font>，请相关同事注意。\n\n",
       "\t\t> 【阿里云】\n",
       "\t\t> 1、初始化阿里云SDK: ", a, "\n",
       "\t\t> 2、调用阿里云域名列表接口: ", b, "\n",
       "\t\t> 3、调用阿里云域名解析接口: ", c, "\n\n",
       "\t\t> 【腾讯云】\n",
       "\t\t> 1、初始化腾讯云SDK: ", d, "\n",
       "\t\t> 2、调用腾讯云域名列表接口: ", e, "\n",
       "\t\t> 3、调用腾讯云域名解析接口: ", f, "\n\n",
       "\t\t> 【HTTPS域名检查】\n",
       "\t\t> 4、检查HTTPS域名到期时间: ", g, "\n",
       "\t\t> 5、Reload状态: ", h])
  | _ => none

/-- Go `NoticeWeCom`: a panic of `markdownMessage`, or the error returned. -/
def NoticeWeCom (env : Env) (httpsDomainSum : Nat) (setpStatusMap : StatusMap) :
    Except PanicValue (Option GoError) :=
  match markdownMessage httpsDomainSum setpStatusMap with
  | none => .error .indexOutOfRange
  | some content => .ok (env.sendNotice content)

/-! ## The pipeline -/

/-- The body of `_main`, without the deferred call. -/
def mainBody (env : Env) (fuel : Nat) (st : State) : Option (State × Ctl) :=
  match GetConfig env st with
  | (st, some _err) => some (st, .ret (some _err))
  | (st, none) =>
  match ClientInit env st with
  | (st, some _err) => some (st.setStatus "initStatus" [failText, failColor], .ret (some _err))
  | (st, none) =>
  let st := st.setStatus "initStatus" [successText, successColor]
  match DescribeDomains env fuel st with
  | none => none
  | some (st, .panic v) => some (st, .panic v)
  | some (st, .crash v) => some (st, .crash v)
  | some (st, .ret (some _err)) =>
    some (st.setStatus "describeDomainsStatus" [failText, failColor], .ret (some _err))
  | some (st, .ret none) =>
  let st := st.setStatus "describeDomainsStatus" [successText, successColor]
  match DescribeDomainRecords env fuel st with
  | none => none
  | some (st, some _err) =>
    some (st.setStatus "describeDomainRecordsStatus" [failText, failColor], .ret (some _err))
  | some (st, none) =>
  let st := st.setStatus "describeDomainRecordsStatus" [successText, successColor]
  match ExpirationHttpsDomain env st with
  | (st, .panic v) => some (st, .panic v)
  | (st, .crash v) => some (st, .crash v)
  | (st, .ret (some _err)) =>
    some (st.setStatus "expirationHttpsDomainStatus" [failText, failColor], .ret (some _err))
  | (st, .ret none) =>
  let st := st.setStatus "expirationHttpsDomainStatus" [successText, successColor]
  match ReloadPrometheus env st with
  | (st, some _err) =>
    some (st.setStatus "reloadPrometheusStatus" [failText, failColor], .ret (some _err))
  | (st, none) =>
    some (st.setStatus "reloadPrometheusStatus" [successText, successColor], .ret none)

/-- Go `_main`: the body, then the deferred closure, which calls `NoticeWeCom` with the
values `httpsDomainSum` and `setpStatusMap` have at that moment and whose own
result is dropped.  The closure runs when the body returns and when it panics; it
does not run when the process has exited. -/
def _main (env : Env) (fuel : Nat) (st : State) : Option (State × Ctl) :=
  match mainBody env fuel st with
  | none => none
  | some (st, .crash v) => some (st, .crash v)
  | some (st, ctl) =>
    let st := st.log (.notice st.httpsDomainSum st.setpStatusMap)
    match NoticeWeCom env st.httpsDomainSum st.setpStatusMap with
    | .error v => some (st, .panic v)
    | .ok _ => some (st, ctl)

/-! ## Notions the statements about probing use -/

/-- The probe of a candidate succeeded: the dial and the handshake succeeded and
the peer chain is not empty. -/
def probeSucceeded (net : ProbeNet) : Bool :=
  net.dialOk && net.handshakeOk && !net.PeerCertificates.isEmpty

/-- The tasks of a completion order whose probe succeeded, in that order. -/
def recordedTasks (env : Env) (order : List (Nat × String)) : List (Nat × String) :=
  order.filter (fun task => probeSucceeded (env.probeNet task.1 task.2))

/-- The number of `https://` target entries written to the template builder. -/
def targetEntries (templateString : List String) : Nat :=
  (templateString.filter (fun chunk => stringsHasPrefix chunk "   - https://")).length

/-- The number of lines of a text that are `https://` target entries. -/
def targetLines (text : String) : Nat :=
  ((text.data.splitOn '\n').filter
    (fun line => String.data "   - https://" |>.isPrefixOf line)).length

/-- The aggregate state the probe tasks start from: the template holds its header
only and nothing has been counted. -/
def initialShared (httpsdomainTxt : String) : ProbeShared :=
  { httpsdomainTxt := httpsdomainTxt, httpsDomainSum := 0, templateString := ["- targets:\n"] }

/-! ## A concrete environment -/

/-- An environment in which every call succeeds, both providers hold nothing and
every probe is refused; the tasks complete in the order they were spawned. -/
def quietEnv : Env where
  readInConfig := none
  aliyunNewClient := none
  tencentNewClient := none
  aliyunDescribeDomains := fun _ _ => .ok []
  tencentDescribeDomainList := .ok []
  aliyunDescribeDomainRecords := fun _ _ _ => .ok []
  tencentDescribeRecordList := fun _ _ _ => .ok []
  createDomainsTxt := none
  writeDomainsTxt := fun _ _ => none
  createHttpsdomainTxt := none
  createTemplateYml := none
  openDomainsTxt := none
  probeNet := fun _ _ => { dialOk := false, handshakeOk := false, PeerCertificates := [] }
  writeHttpsdomainTxt := fun _ _ => none
  schedule := fun tasks => ⟨tasks, List.Perm.refl tasks⟩
  writeTemplateYml := fun _ => none
  reloadPrometheus := none
  sendNotice := fun _ => none

/-- The network outcome of a probe of a host serving the given certificate. -/
def servesCertificate (notAfter : Int) : ProbeNet :=
  { dialOk := true, handshakeOk := true, PeerCertificates := [{ NotAfter := notAfter }] }

/-- The network outcome of a probe of a host that refuses connections. -/
def refusesConnection : ProbeNet :=
  { dialOk := false, handshakeOk := false, PeerCertificates := [] }

/-- The first task spawned reaches a host serving a certificate, every other probe
is refused, and every write to `httpsdomain.txt` fails. -/
def firstServesEnv : Env :=
  { quietEnv with
    probeNet := fun i _ => if i = 0 then servesCertificate 1767225600 else refusesConnection
    writeHttpsdomainTxt := fun _ _ => some (.other "no space left on device") }

/-- The texts passed to `templateFile.WriteString` in a trace, in order. -/
def writtenTexts (trace : List Event) : List String :=
  trace.filterMap (fun e => match e with
    | .templateWrite text => some text
    | _ => none)

/-- The text of the monitoring target file for the given hostnames, as the
specification gives it: the `targets:` header, one `https://` line per hostname and
the fixed `labels:` block. -/
def targetFileText (hosts : List String) : String :=
  "- targets:\n" ++ String.join (hosts.map (fun h => "   - https://" ++ h ++ "\n")) ++
    "  labels:\n    group: web\n    department: test-auto\n"

/-- The three files of `ExpirationHttpsDomain` can be opened. -/
def opensSucceed (env : Env) : Bool :=
  env.createHttpsdomainTxt.isNone && env.createTemplateYml.isNone && env.openDomainsTxt.isNone

/-- Host `a.example.com` serves a certificate expiring 2026-01-01T00:00:00Z and
every other host refuses connections. -/
def endToEndEnv : Env :=
  { quietEnv with
    probeNet := fun _ domain =>
      if domain = "a.example.com" then servesCertificate 1767225600 else refusesConnection }

/-- The names of the pipeline functions entered in a trace, in order. -/
def calledFns (trace : List Event) : List String :=
  trace.filterMap (fun e => match e with
    | .call fn => some fn
    | _ => none)

/-- Tencent lists the domain `example.com` and answers the record request for it
with a `TencentCloudSDKError`; everything else succeeds. -/
def tencentSDKErrorEnv : Env :=
  { quietEnv with
    tencentDescribeDomainList := .ok ["example.com"]
    tencentDescribeRecordList := fun _ _ _ =>
      .error (.tencentCloudSDK "AuthFailure.SecretIdNotFound") }

/-! ## Notions the statements about paging use -/

/-- The domain names on a page of the Aliyun domain list (none for a failed call). -/
def aliyunDomainsPage (env : Env) (pageNumber : Nat) : List String :=
  match env.aliyunDescribeDomains pageNumber 20 with
  | .ok names => names
  | .error _ => []

/-- The records on a page of the Aliyun record list of a domain (none for a failed call). -/
def aliyunRecordsPage (env : Env) (domainName : String) (pageNumber : Nat) :
    List AliyunRecord :=
  match env.aliyunDescribeDomainRecords domainName pageNumber 20 with
  | .ok records => records
  | .error _ => []

/-- Aliyun lists three domains on two pages (the third page is empty) and, for
every domain, one page of records followed by a failing call. -/
def pagedEnv : Env :=
  { quietEnv with
    aliyunDescribeDomains := fun pageNumber _ =>
      if pageNumber = 1 then .ok ["a.com", "b.com"]
      else if pageNumber = 2 then .ok ["c.com"]
      else .ok []
    aliyunDescribeDomainRecords := fun domainName pageNumber _ =>
      if pageNumber = 1 then
        .ok [{ RR := "www", RecordType := "A", Status := "ENABLE", DomainName := domainName }]
      else .error (.other "i/o timeout") }

/-- The Tencent record API on a provider holding `holdings domain` for each
domain: a request (offset, limit) is answered with the records from `offset` on,
at most `limit` of them. -/
def tencentApi (holdings : String → List TencentRecord) :
    String → Nat → Nat → Except GoError (List TencentRecord) :=
  fun domain offset limit => .ok (((holdings domain).drop offset).take limit)

/-- The domain `big.com` holds 3001 records: 3000 records `www` and a last record `api`. -/
def bigHoldings : String → List TencentRecord :=
  fun _ =>
    List.replicate 3000 { Name := "www", RecordType := "A", Status := "ENABLE" } ++
      [{ Name := "api", RecordType := "A", Status := "ENABLE" }]

/-- Every call succeeds and Tencent holds `bigHoldings`. -/
def bigEnv : Env :=
  { quietEnv with tencentDescribeRecordList := tencentApi bigHoldings }

/-- Every call succeeds and Tencent holds two records for every domain. -/
def smallEnv : Env :=
  { quietEnv with
    tencentDescribeRecordList := tencentApi (fun _ =>
      [{ Name := "www", RecordType := "A", Status := "ENABLE" },
       { Name := "dev", RecordType := "A", Status := "ENABLE" }]) }

/-! ## Notions the statements about the whole run use -/

/-- The operation whose outcome a step name of the notification reports. -/
def stepOperation : String → Option String
  | "aliyunInitStatus" => some "AliyunInit"
  | "aliyunDescribeDomainsStatus" => some "AliyunDescribeDomains"
  | "aliyunDescribeDomainRecordsStatus" => some "AliyunDescribeDomainRecords"
  | "tencentInitStatus" => some "TencentInit"
  | "tencentDescribeDomainsStatus" => some "TencentDescribeDomains"
  | "tencentDescribeDomainRecordsStatus" => some "TencentDescribeDomainRecords"
  | "expirationHttpsDomainStatus" => some "ExpirationHttpsDomain"
  | "reloadPrometheusStatus" => some "ReloadPrometheus"
  | _ => none

/-- The eight step names `NoticeWeCom` reads. -/
def stepNames : List String :=
  ["aliyunInitStatus", "aliyunDescribeDomainsStatus", "aliyunDescribeDomainRecordsStatus",
   "tencentInitStatus", "tencentDescribeDomainsStatus", "tencentDescribeDomainRecordsStatus",
   "expirationHttpsDomainStatus", "reloadPrometheusStatus"]

/-- A state in which the notifier has not been called and every step reported as
done names an operation that was entered and returned nil; every other step is
reported as failed. -/
def StatusSound (st : State) : Prop :=
  (∀ e ∈ st.trace, e.isNotice = false) ∧
  ∀ key op, stepOperation key = some op →
    st.setpStatusMap key = some [failText, failColor] ∨
    (st.setpStatusMap key = some [successText, successColor] ∧
      Event.call op ∈ st.trace ∧ Event.ret op none ∈ st.trace)

/-- The state `st'` comes from `st` by steps that leave the status map alone and add
events other than calls of the notifier. -/
def Extends (st st' : State) : Prop :=
  st'.setpStatusMap = st.setpStatusMap ∧
  ∃ l, st'.trace = st.trace ++ l ∧ ∀ e ∈ l, e.isNotice = false

/-- Between `st` and `st'` the operation `op` was entered and returned `err`, the
status map was left alone and the notifier was not called. -/
def Ran (op : String) (err : Option GoError) (st st' : State) : Prop :=
  Extends st st' ∧ Event.call op ∈ st'.trace ∧ Event.ret op err ∈ st'.trace

/-- A page ends a paged listing: the call failed or the page is empty. -/
def pageEnds {α : Type} : Except GoError (List α) → Bool
  | .error _ => true
  | .ok page => page.isEmpty

/-- Both Aliyun listings end: the domain list has a failing or empty page, and so
has the record list of every domain. -/
def PagingEnds (env : Env) : Prop :=
  (∃ k, 1 ≤ k ∧ pageEnds (env.aliyunDescribeDomains k 20) = true) ∧
  ∀ domainName, ∃ k, 1 ≤ k ∧
    pageEnds (env.aliyunDescribeDomainRecords domainName k 20) = true

/-! ## The tokens of a label -/

/-- The characters at which a label is split into tokens: `.` and `-`. -/
def isLabelSeparator (c : Char) : Bool :=
  c == '.' || c == '-'

/-- The tokens obtained by splitting a label at every `.` and every `-`. -/
def labelTokens (label : String) : List String :=
  (label.data.splitOnP isLabelSeparator).map String.mk

/-- What each call of the notifier in a trace is given for a step name. -/
def noticedStatus (trace : List Event) (key : String) : List (List String) :=
  trace.filterMap (fun e => match e with
    | .notice _ setpStatusMap => some (setpStatusMap.lookup key)
    | _ => none)

/-- Every call succeeds, except that `httpsdomain.txt` cannot be opened. -/
def httpsdomainTxtDeniedEnv : Env :=
  { quietEnv with createHttpsdomainTxt := some (.other "open httpsdomain.txt: permission denied") }

/-- Every call succeeds, except that `aliyun-tencent-httpsdomain.yml` cannot be opened. -/
def templateYmlDeniedEnv : Env :=
  { quietEnv with
    createTemplateYml := some (.other "open aliyun-tencent-httpsdomain.yml: permission denied") }

/-- Every call succeeds, except that `domains.txt` cannot be opened for reading. -/
def domainsTxtDeniedEnv : Env :=
  { quietEnv with openDomainsTxt := some (.other "open domains.txt: too many open files") }

/-! ## The six rules of the hostname filter, as the specification words them -/

/-- Rule 1: the record type is exactly `A` or `CNAME`. -/
def ruleType (type : String) : Prop := type = "A" ∨ type = "CNAME"

/-- Rule 2: the status is exactly `ENABLE`. -/
def ruleStatus (status : String) : Prop := status = "ENABLE"

/-- Rule 3: the label is none of `@`, `test`, `dev`. -/
def ruleExact (label : String) : Prop :=
  label ≠ "@" ∧ label ≠ "test" ∧ label ≠ "dev"

/-- Rule 4: the label has none of the six listed substrings. -/
def ruleInfix (label : String) : Prop :=
  ∀ p ∈ [".test-", ".dev-", "-test-", "-dev-", "-test.", "-dev."],
    ¬ (String.data p <:+: label.data)

/-- Rule 5: the label does not end with `-test` or `-dev`. -/
def ruleSuffix (label : String) : Prop :=
  ∀ p ∈ ["-test", "-dev"], ¬ (String.data p <:+ label.data)

/-- Rule 6: the label does not start with `test.`, `test-`, `dev.` or `dev-`. -/
def rulePrefix (label : String) : Prop :=
  ∀ p ∈ ["test.", "test-", "dev.", "dev-"], ¬ (String.data p <+: label.data)

/-- All six rules of the hostname filter at once. -/
def sixRules (type status label : String) : Prop :=
  ruleType type ∧ ruleStatus status ∧ ruleExact label ∧
  ruleInfix label ∧ ruleSuffix label ∧ rulePrefix label

/-! # Theorems -/

/-! ## Lemmas on the string tests -/

theorem indexFrom_iff (sub s : List Char) : indexFrom sub s = true ↔ sub <:+: s := by
  induction s with
  | nil =>
    simp [indexFrom, List.isPrefixOf_iff_prefix]
  | cons c cs ih =>
    simp only [indexFrom, Bool.or_eq_true, ih, List.isPrefixOf_iff_prefix]
    constructor
    · rintro (h | h)
      · exact h.isInfix
      · exact h.trans (List.suffix_cons c cs).isInfix
    · intro h
      rcases List.infix_cons_iff.mp h with h | h
      · exact Or.inl h
      · exact Or.inr h

theorem stringsContains_iff (s sub : String) :
    stringsContains s sub = true ↔ sub.data <:+: s.data :=
  indexFrom_iff _ _

theorem stringsHasPrefix_iff (s pre : String) :
    stringsHasPrefix s pre = true ↔ pre.data <+: s.data :=
  List.isPrefixOf_iff_prefix

theorem stringsHasSuffix_iff (s suf : String) :
    stringsHasSuffix s suf = true ↔ suf.data <:+ s.data :=
  List.isSuffixOf_iff_suffix

theorem aliyunRecordFilter_iff (record : AliyunRecord) :
    aliyunRecordFilter record = true ↔
      sixRules record.RecordType record.Status record.RR := by
  simp only [aliyunRecordFilter, sixRules, ruleType, ruleStatus, ruleExact, ruleInfix,
    ruleSuffix, rulePrefix, Bool.and_eq_true, Bool.or_eq_true, beq_iff_eq, bne_iff_ne,
    Bool.not_eq_true', ← Bool.not_eq_true, stringsContains_iff, stringsHasPrefix_iff,
    stringsHasSuffix_iff, List.forall_mem_cons, List.not_mem_nil, ne_eq]
  tauto

theorem tencentRecordFilter_iff (record : TencentRecord) :
    tencentRecordFilter record = true ↔
      sixRules record.RecordType record.Status record.Name := by
  simp only [tencentRecordFilter, sixRules, ruleType, ruleStatus, ruleExact, ruleInfix,
    ruleSuffix, rulePrefix, Bool.and_eq_true, Bool.or_eq_true, beq_iff_eq, bne_iff_ne,
    Bool.not_eq_true', ← Bool.not_eq_true, stringsContains_iff, stringsHasPrefix_iff,
    stringsHasSuffix_iff, List.forall_mem_cons, List.not_mem_nil, ne_eq]
  tauto

/-- C1: for every record (type, status, label) the inline filter of
`AliyunDescribeDomainRecords` (on `RR`) and the inline filter of
`TencentDescribeDomainRecords` (on `Name`) accept the record exactly when all six
rules hold; hence the two filters decide identically, and the record
`test-api` / `A` / `ENABLE` is rejected by both. -/
theorem C1_filters_accept_iff_six_rules :
    (∀ type status label zone : String,
      (aliyunRecordFilter ⟨label, type, status, zone⟩ = true ↔ sixRules type status label) ∧
      (tencentRecordFilter ⟨label, type, status⟩ = true ↔ sixRules type status label) ∧
      aliyunRecordFilter ⟨label, type, status, zone⟩ = tencentRecordFilter ⟨label, type, status⟩) ∧
    aliyunRecordFilter ⟨"test-api", "A", "ENABLE", "example.com"⟩ = false ∧
    tencentRecordFilter ⟨"test-api", "A", "ENABLE"⟩ = false := by
  refine ⟨fun type status label zone => ⟨?_, ?_, ?_⟩, by decide, by decide⟩
  · exact aliyunRecordFilter_iff ⟨label, type, status, zone⟩
  · exact tencentRecordFilter_iff ⟨label, type, status⟩
  · rw [Bool.eq_iff_iff]
    exact (aliyunRecordFilter_iff ⟨label, type, status, zone⟩).trans
      (tencentRecordFilter_iff ⟨label, type, status⟩).symm

/-! ## The probe of one candidate -/

/-- C2: with the network outcome of a probe given as (dial succeeded, handshake
succeeded, peer chain), `processDomain` yields a result exactly when the dial and
the handshake succeeded and the chain is not empty; the expiration is then the
`NotAfter` of the certificate at index 0, which is in bounds; in every other case
nothing is recorded, and no panic is raised in either case. -/
theorem C2_probe_yields_result_iff (net : ProbeNet) (env : Env) (task : Nat × String)
    (shared : ProbeShared) :
    ((∃ t, probeCertificate net = .result t) ↔
      (net.dialOk = true ∧ net.handshakeOk = true ∧ net.PeerCertificates ≠ [])) ∧
    (∀ t, probeCertificate net = .result t ↔
      (net.dialOk = true ∧ net.handshakeOk = true ∧
        (net.PeerCertificates[0]?).map Certificate.NotAfter = some t)) ∧
    (probeCertificate net = .discarded ↔
      ¬ (net.dialOk = true ∧ net.handshakeOk = true ∧ net.PeerCertificates ≠ [])) ∧
    probeCertificate net ≠ .panicked ∧
    processDomain env task shared = .ok
      (match probeCertificate (env.probeNet task.1 task.2) with
        | .result _ => recordProbe env task shared
        | _ => shared) := by
  refine ⟨?_, ?_, ?_, ?_, ?_⟩
  · rcases net with ⟨_ | _, _ | _, _ | ⟨c, cs⟩⟩ <;> simp [probeCertificate]
  · intro t
    rcases net with ⟨_ | _, _ | _, _ | ⟨c, cs⟩⟩ <;> simp [probeCertificate]
  · rcases net with ⟨_ | _, _ | _, _ | ⟨c, cs⟩⟩ <;> simp [probeCertificate]
  · rcases net with ⟨_ | _, _ | _, _ | ⟨c, cs⟩⟩ <;> simp [probeCertificate]
  · unfold processDomain
    rcases env.probeNet task.1 task.2 with ⟨_ | _, _ | _, _ | ⟨c, cs⟩⟩ <;>
      simp [probeCertificate]

theorem probeCertificate_eq (net : ProbeNet) :
    probeCertificate net =
      if probeSucceeded net then
        .result ((net.PeerCertificates[0]?).map Certificate.NotAfter |>.getD 0)
      else .discarded := by
  rcases net with ⟨_ | _, _ | _, _ | ⟨c, cs⟩⟩ <;> simp [probeCertificate, probeSucceeded]

theorem processDomain_eq (env : Env) (task : Nat × String) (shared : ProbeShared) :
    processDomain env task shared = .ok
      (if probeSucceeded (env.probeNet task.1 task.2) then recordProbe env task shared
       else shared) := by
  unfold processDomain
  rw [probeCertificate_eq]
  split_ifs <;> rfl

theorem recordProbe_httpsDomainSum (env : Env) (task : Nat × String) (shared : ProbeShared) :
    (recordProbe env task shared).httpsDomainSum = shared.httpsDomainSum + 1 := by
  simp only [recordProbe]
  cases env.writeHttpsdomainTxt task.1 task.2 <;> rfl

theorem recordProbe_templateString (env : Env) (task : Nat × String) (shared : ProbeShared) :
    (recordProbe env task shared).templateString =
      shared.templateString ++ ["   - https://" ++ task.2 ++ "\n"] := by
  simp only [recordProbe]
  cases env.writeHttpsdomainTxt task.1 task.2 <;> rfl

/-- The probe tasks never panic; they add one to the count and one entry to the
template for each task whose probe succeeded, in completion order. -/
theorem runProbeTasks_eq (env : Env) (order : List (Nat × String)) (shared : ProbeShared) :
    ∃ txt, runProbeTasks env order shared = .ok
      { httpsdomainTxt := txt
        httpsDomainSum := shared.httpsDomainSum + (recordedTasks env order).length
        templateString := shared.templateString ++
          (recordedTasks env order).map (fun task => "   - https://" ++ task.2 ++ "\n") } := by
  induction order generalizing shared with
  | nil => exact ⟨shared.httpsdomainTxt, by simp [runProbeTasks, recordedTasks]⟩
  | cons task rest ih =>
    simp only [runProbeTasks, processDomain_eq]
    by_cases h : probeSucceeded (env.probeNet task.1 task.2) = true
    · obtain ⟨txt, htxt⟩ := ih (recordProbe env task shared)
      refine ⟨txt, ?_⟩
      have hrec : recordedTasks env (task :: rest) = task :: recordedTasks env rest := by
        simp [recordedTasks, h]
      rw [hrec]
      simp only [h, if_true, htxt, recordProbe_httpsDomainSum, recordProbe_templateString]
      simp [Nat.add_assoc, Nat.add_comm 1]
    · obtain ⟨txt, htxt⟩ := ih shared
      refine ⟨txt, ?_⟩
      have hrec : recordedTasks env (task :: rest) = recordedTasks env rest := by
        simp [recordedTasks, h]
      rw [hrec]
      simpa [h] using htxt

theorem targetEntries_append_entries (chunks : List String) (hosts : List String) :
    targetEntries (chunks ++ hosts.map (fun h => "   - https://" ++ h ++ "\n")) =
      targetEntries chunks + hosts.length := by
  unfold targetEntries
  rw [List.filter_append, List.length_append]
  congr 1
  rw [List.filter_eq_self.mpr, List.length_map]
  intro chunk hc
  obtain ⟨h, -, rfl⟩ := List.mem_map.mp hc
  simp [stringsHasPrefix, List.append_assoc]

theorem targetLines_entries (hosts : List String) (hnl : ∀ h ∈ hosts, '\n' ∉ h.data) :
    ((((hosts.map (fun h => "   - https://" ++ h ++ "\n")).map String.data).flatten.splitOn
      '\n').filter (fun line => String.data "   - https://" |>.isPrefixOf line)).length =
      hosts.length := by
  induction hosts with
  | nil => decide
  | cons h rest ih =>
    have hrest : ∀ h ∈ rest, '\n' ∉ h.data := fun x hx => hnl x (List.mem_cons_of_mem _ hx)
    have hh : '\n' ∉ h.data := hnl h (List.mem_cons_self _ _)
    have hsplit : ∀ tail : List Char,
        (("   - https://" ++ h ++ "\n").data ++ tail).splitOn '\n' =
          (String.data "   - https://" ++ h.data) :: tail.splitOn '\n' := by
      intro tail
      have hdata : ("   - https://" ++ h ++ "\n").data ++ tail =
          (String.data "   - https://" ++ h.data) ++ '\n' :: tail := by
        simp [String.data_append]
      rw [hdata]
      unfold List.splitOn
      apply List.splitOnP_first
      · intro x hx
        rcases List.mem_append.mp hx with hx | hx
        · have hlit : ∀ y ∈ String.data "   - https://", ¬ ((y == '\n') = true) := by decide
          exact hlit x hx
        · intro hxe
          have : x = '\n' := by simpa using hxe
          exact hh (this ▸ hx)
      · simp
    simp only [List.map_cons, List.flatten_cons, hsplit, List.length_cons]
    rw [List.filter_cons_of_pos (by simp), List.length_cons, ih hrest]

theorem targetLines_template (hosts : List String) (hnl : ∀ h ∈ hosts, '\n' ∉ h.data) :
    targetLines (builderString
      (["- targets:\n"] ++ hosts.map (fun h => "   - https://" ++ h ++ "\n"))) =
      hosts.length := by
  have hjoin : ∀ chunks, builderString chunks = String.join chunks := fun _ => rfl
  unfold targetLines
  rw [hjoin, String.data_join, List.map_append, List.flatten_append]
  have hhead : ((["- targets:\n"] : List String).map String.data).flatten =
      String.data "- targets:" ++ ['\n'] := by decide
  rw [hhead, List.append_assoc, List.singleton_append]
  unfold List.splitOn
  rw [@List.splitOnP_first _ (fun x => x == '\n') (String.data "- targets:")
    (by decide) '\n' (by simp)]
  rw [List.filter_cons_of_neg (by decide)]
  exact targetLines_entries hosts hnl

/-! ## The aggregate of the probe tasks -/

/-- C3: from the initial aggregate state (template header only, count 0), once the
probe tasks of any candidates have recorded in any completion order, the number
of `https://` entries written to the template equals `httpsDomainSum`, and both
equal the number of candidates whose probe succeeded, whatever the outcome of
the writes to `httpsdomain.txt`; when no candidate holds a line break (they are
lines of `domains.txt`), that is also the number of `https://` lines of the
template text. -/
theorem C3_target_entries_eq_httpsDomainSum (env : Env) (httpsdomainTxt : String)
    (candidates : List String) (order : List (Nat × String))
    (horder : order.Perm candidates.enum) :
    ∃ shared, runProbeTasks env order (initialShared httpsdomainTxt) = .ok shared ∧
      targetEntries shared.templateString = shared.httpsDomainSum ∧
      shared.httpsDomainSum =
        (candidates.enum.filter
          (fun task => probeSucceeded (env.probeNet task.1 task.2))).length ∧
      ((∀ c ∈ candidates, '\n' ∉ c.data) →
        targetLines (builderString shared.templateString) = shared.httpsDomainSum) := by
  obtain ⟨txt, htxt⟩ := runProbeTasks_eq env order (initialShared httpsdomainTxt)
  refine ⟨_, htxt, ?_, ?_, ?_⟩
  · have h := targetEntries_append_entries ["- targets:\n"]
      ((recordedTasks env order).map Prod.snd)
    simp only [List.map_map] at h
    simp only [initialShared, Nat.zero_add]
    rw [show (fun task : Nat × String => "   - https://" ++ task.2 ++ "\n") =
      (fun h => "   - https://" ++ h ++ "\n") ∘ Prod.snd from rfl, h]
    simp [targetEntries, stringsHasPrefix]
  · simp only [initialShared, Nat.zero_add, recordedTasks]
    exact (horder.filter _).length_eq
  · intro hnl
    have h := targetLines_template ((recordedTasks env order).map Prod.snd) (by
      intro h hh
      obtain ⟨task, htask, rfl⟩ := List.mem_map.mp hh
      have hmem : task ∈ candidates.enum :=
        horder.subset (List.mem_of_mem_filter htask)
      have hsnd : task.2 ∈ candidates.enum.map Prod.snd := List.mem_map_of_mem _ hmem
      rw [List.enum_map_snd] at hsnd
      exact hnl task.2 hsnd)
    simp only [List.map_map, List.length_map] at h
    simp only [initialShared, Nat.zero_add]
    exact h

theorem C3_target_entries_eq_httpsDomainSum_witness :
    ([(1, "b.example.com"), (0, "a.example.com")] : List (Nat × String)).Perm
        (["a.example.com", "b.example.com"].enum) ∧
    ∃ shared, runProbeTasks firstServesEnv [(1, "b.example.com"), (0, "a.example.com")]
        (initialShared "") = .ok shared ∧
      targetEntries shared.templateString = shared.httpsDomainSum ∧
      shared.httpsDomainSum =
        ((["a.example.com", "b.example.com"].enum).filter
          (fun task => probeSucceeded (firstServesEnv.probeNet task.1 task.2))).length ∧
      ((∀ c ∈ ["a.example.com", "b.example.com"], '\n' ∉ c.data) →
        targetLines (builderString shared.templateString) = shared.httpsDomainSum) :=
  ⟨List.Perm.swap _ _ _,
    C3_target_entries_eq_httpsDomainSum firstServesEnv "" ["a.example.com", "b.example.com"]
      [(1, "b.example.com"), (0, "a.example.com")] (List.Perm.swap _ _ _)⟩

/-! ## The monitoring target file -/

theorem builderString_template (hosts : List String) :
    builderString ((["- targets:\n"] ++ hosts.map (fun h => "   - https://" ++ h ++ "\n")) ++
      ["  labels:\n", "    group: web\n", "    department: test-auto\n"]) =
      targetFileText hosts := by
  have hjoin : ∀ chunks, builderString chunks = String.join chunks := fun _ => rfl
  rw [hjoin]
  apply String.ext
  simp only [targetFileText, String.data_join, String.data_append, List.map_append,
    List.flatten_append, List.map_cons, List.map_nil, List.flatten_cons, List.flatten_nil,
    List.append_nil, List.append_assoc]
  rfl

theorem writtenTexts_append (l₁ l₂ : List Event) :
    writtenTexts (l₁ ++ l₂) = writtenTexts l₁ ++ writtenTexts l₂ := by
  simp [writtenTexts, List.filterMap_append]

theorem ExpirationHttpsDomain_writtenTexts (env : Env) (st : State) :
    writtenTexts (ExpirationHttpsDomain env st).1.trace =
      writtenTexts st.trace ++
        (if opensSucceed env then
          [targetFileText ((recordedTasks env
            (env.schedule (scannedDomains st.domainsTxt).enum).val).map Prod.snd)]
         else []) := by
  unfold ExpirationHttpsDomain opensSucceed
  rcases h1 : env.createHttpsdomainTxt with _ | e1
  · rcases h2 : env.createTemplateYml with _ | e2
    · rcases h3 : env.openDomainsTxt with _ | e3
      · obtain ⟨txt, htxt⟩ := runProbeTasks_eq env
          (env.schedule (scannedDomains st.domainsTxt).enum).val
          { httpsdomainTxt := "", httpsDomainSum := st.httpsDomainSum,
            templateString := ["- targets:\n"] }
        simp only [State.log, htxt]
        have hb := builderString_template ((recordedTasks env
            (env.schedule (scannedDomains st.domainsTxt).enum).val).map Prod.snd)
        simp only [List.map_map] at hb
        rw [show (fun task : Nat × String => "   - https://" ++ task.2 ++ "\n") =
          (fun h => "   - https://" ++ h ++ "\n") ∘ Prod.snd from rfl, hb]
        cases env.writeTemplateYml _ <;>
          simp [writtenTexts, List.filterMap_append]
      · simp [State.log, writtenTexts, List.filterMap_append]
    · simp [State.log, writtenTexts, List.filterMap_append]
  · simp [State.log, writtenTexts, List.filterMap_append]

/-- C4: the text `ExpirationHttpsDomain` writes to the monitoring target file is
`- targets:`, then one line `   - https://<host>` for each hostname whose probe
succeeded, in the order they were recorded, then the fixed `labels:` block;
hostnames whose probe failed add nothing (and nothing is written when a file
cannot be opened).  With `a.example.com` succeeding and `b.example.com` refusing
connections the file holds the header, the line of `a.example.com` and the labels. -/
theorem C4_target_file_text :
    (∀ (env : Env) (st : State),
      writtenTexts (ExpirationHttpsDomain env st).1.trace =
        writtenTexts st.trace ++
          (if opensSucceed env then
            [targetFileText ((recordedTasks env
              (env.schedule (scannedDomains st.domainsTxt).enum).val).map Prod.snd)]
           else [])) ∧
    writtenTexts (ExpirationHttpsDomain endToEndEnv
        (init (start "a.example.com\nb.example.com\n" "" ""))).1.trace =
      ["- targets:\n   - https://a.example.com\n  labels:\n    group: web\n    department: test-auto\n"] ∧
    (ExpirationHttpsDomain endToEndEnv
        (init (start "a.example.com\nb.example.com\n" "" ""))).1.templateYml =
      "- targets:\n   - https://a.example.com\n  labels:\n    group: web\n    department: test-auto\n" := by
  refine ⟨ExpirationHttpsDomain_writtenTexts, ?_, by decide⟩
  rw [ExpirationHttpsDomain_writtenTexts]
  decide

/-! ## Provider failures while the records are listed -/

/-- C5 (the code at the failing input): when `DescribeRecordList` fails with a
`TencentCloudSDKError`, `TencentDescribeDomainRecords` returns nil through its bare
`return`, so `DescribeDomainRecords` returns nil, the Tencent records step is
recorded as done, and `_main` goes on to run `ExpirationHttpsDomain` and returns
nil. -/
theorem C5_tencent_sdk_error_returns_nil :
    (TencentDescribeDomainRecords tencentSDKErrorEnv ["example.com"]
      (init (start "" "" ""))).2 = none ∧
    (_main tencentSDKErrorEnv 1 (init (start "" "" ""))).map (fun r => r.2) =
      some (.ret none) ∧
    (_main tencentSDKErrorEnv 1 (init (start "" "" ""))).map
      (fun r => r.1.setpStatusMap.lookup "tencentDescribeDomainRecordsStatus") =
      some [successText, successColor] ∧
    (_main tencentSDKErrorEnv 1 (init (start "" "" ""))).map
      (fun r => calledFns r.1.trace) =
      some ["GetConfig", "AliyunInit", "TencentInit", "AliyunDescribeDomains",
        "TencentDescribeDomains", "AliyunDescribeDomainRecords",
        "TencentDescribeDomainRecords", "ExpirationHttpsDomain", "ReloadPrometheus"] := by
  refine ⟨by decide, by decide, by decide, by decide⟩

/-! ## Record collection -/

theorem writeDomainsTxt_recordSlice (env : Env) (st : State) (line : String) :
    (writeDomainsTxt env st line).1.recordSlice = st.recordSlice := by
  unfold writeDomainsTxt
  cases env.writeDomainsTxt st.domainsTxtWrites line <;> rfl

theorem aliyunRecordLoop_recordSlice (env : Env) (records : List AliyunRecord) (st : State) :
    (aliyunRecordLoop env records st).recordSlice =
      st.recordSlice ++
        (records.filter aliyunRecordFilter).map (fun r => r.RR ++ "." ++ r.DomainName) := by
  unfold aliyunRecordLoop
  induction records generalizing st with
  | nil => simp
  | cons r rest ih =>
    rw [List.foldl_cons, ih]
    by_cases h : aliyunRecordFilter r = true
    · simp [aliyunRecordStep, h, writeDomainsTxt_recordSlice]
    · simp [aliyunRecordStep, h]

theorem tencentRecordLoop_recordSlice (env : Env) (domainName : String)
    (records : List TencentRecord) (acc : State × Option GoError) :
    (tencentRecordLoop env domainName records acc).1.recordSlice =
      acc.1.recordSlice ++
        (records.filter tencentRecordFilter).map (fun r => r.Name ++ "." ++ domainName) := by
  unfold tencentRecordLoop
  induction records generalizing acc with
  | nil => simp
  | cons r rest ih =>
    rw [List.foldl_cons, ih]
    by_cases h : tencentRecordFilter r = true
    · simp [tencentRecordStep, h, writeDomainsTxt_recordSlice]
    · simp [tencentRecordStep, h]

/-- C7: for every sequence of records fetched from a provider, record collection
started on an empty candidate list leaves in `recordSlice` exactly the records
that pass the filter, each mapped to label + "." + zone, in fetch order (started
on any list, it appends them); the kept records are a subsequence of the fetched
ones, each has type `A` or `CNAME` and status `ENABLE`, and a rejected record adds
no entry. -/
theorem C7_recordSlice_eq_filter_map (env : Env) (st : State)
    (aliyunRecords : List AliyunRecord) (tencentRecords : List TencentRecord)
    (domainName : String) (err : Option GoError) :
    (aliyunRecordLoop env aliyunRecords { st with recordSlice := [] }).recordSlice =
      (aliyunRecords.filter aliyunRecordFilter).map (fun r => r.RR ++ "." ++ r.DomainName) ∧
    (tencentRecordLoop env domainName tencentRecords
        ({ st with recordSlice := [] }, err)).1.recordSlice =
      (tencentRecords.filter tencentRecordFilter).map (fun r => r.Name ++ "." ++ domainName) ∧
    (aliyunRecordLoop env aliyunRecords st).recordSlice =
      st.recordSlice ++
        (aliyunRecords.filter aliyunRecordFilter).map (fun r => r.RR ++ "." ++ r.DomainName) ∧
    (tencentRecordLoop env domainName tencentRecords (st, err)).1.recordSlice =
      st.recordSlice ++
        (tencentRecords.filter tencentRecordFilter).map (fun r => r.Name ++ "." ++ domainName) ∧
    (aliyunRecords.filter aliyunRecordFilter).Sublist aliyunRecords ∧
    (tencentRecords.filter tencentRecordFilter).Sublist tencentRecords ∧
    (∀ r ∈ aliyunRecords.filter aliyunRecordFilter,
      aliyunRecordFilter r = true ∧ (r.RecordType = "A" ∨ r.RecordType = "CNAME") ∧
        r.Status = "ENABLE") ∧
    (∀ r ∈ tencentRecords.filter tencentRecordFilter,
      tencentRecordFilter r = true ∧ (r.RecordType = "A" ∨ r.RecordType = "CNAME") ∧
        r.Status = "ENABLE") := by
  refine ⟨?_, ?_, aliyunRecordLoop_recordSlice env aliyunRecords st,
    tencentRecordLoop_recordSlice env domainName tencentRecords (st, err),
    List.filter_sublist _, List.filter_sublist _, ?_, ?_⟩
  · rw [aliyunRecordLoop_recordSlice]
    rfl
  · rw [tencentRecordLoop_recordSlice]
    rfl
  · intro r hr
    have hf := (List.mem_filter.mp hr).2
    have h6 := (aliyunRecordFilter_iff r).mp hf
    exact ⟨hf, h6.1, h6.2.1⟩
  · intro r hr
    have hf := (List.mem_filter.mp hr).2
    have h6 := (tencentRecordFilter_iff r).mp hf
    exact ⟨hf, h6.1, h6.2.1⟩

/-! ## Paging through the Aliyun lists -/

theorem appendNames_eq (slice names : List String) : appendNames slice names = slice ++ names := by
  unfold appendNames
  induction names generalizing slice with
  | nil => simp
  | cons n rest ih => simp [List.foldl_cons, ih]

theorem aliyunDescribeDomainsLoop_pages (env : Env) (n : Nat) :
    ∀ (fuel p : Nat) (st : State) (res : Option GoError), n < fuel →
      (∀ j, j < n → ∃ names, env.aliyunDescribeDomains (p + j) 20 = .ok names ∧ names ≠ []) →
      ((env.aliyunDescribeDomains (p + n) 20 = .ok [] ∧ res = none) ∨
        (∃ e, env.aliyunDescribeDomains (p + n) 20 = .error e ∧ res = some e)) →
      ∃ st', aliyunDescribeDomainsLoop env fuel p st = some (st', res) ∧
        st'.trace = st.trace ++
          (List.range' p (n + 1)).map (fun q => Event.aliyunDomainsRequest q 20) ∧
        st'.aliyunDomainSlice = st.aliyunDomainSlice ++
          (List.range' p n).flatMap (aliyunDomainsPage env) := by
  induction n with
  | zero =>
    intro fuel p st res hfuel _ hend
    obtain ⟨f, rfl⟩ : ∃ f, fuel = f + 1 := ⟨fuel - 1, by omega⟩
    rcases hend with ⟨hpage, rfl⟩ | ⟨e, hpage, rfl⟩
    · rw [Nat.add_zero] at hpage
      exact ⟨st.log (.aliyunDomainsRequest p 20), by simp [aliyunDescribeDomainsLoop, hpage],
        by simp [State.log], by simp [State.log]⟩
    · rw [Nat.add_zero] at hpage
      exact ⟨st.log (.aliyunDomainsRequest p 20), by simp [aliyunDescribeDomainsLoop, hpage],
        by simp [State.log], by simp [State.log]⟩
  | succ n ih =>
    intro fuel p st res hfuel hpages hend
    obtain ⟨f, rfl⟩ : ∃ f, fuel = f + 1 := ⟨fuel - 1, by omega⟩
    obtain ⟨names, hnames, hne⟩ := hpages 0 (Nat.succ_pos n)
    rw [Nat.add_zero] at hnames
    have hlen : names.length ≠ 0 := by
      intro h
      exact hne (List.length_eq_zero.mp h)
    obtain ⟨st', hrun, htrace, hslice⟩ := ih f (p + 1)
      { (st.log (.aliyunDomainsRequest p 20)) with
        aliyunDomainSlice := appendNames st.aliyunDomainSlice names } res (by omega)
      (fun j hj => by
        have := hpages (j + 1) (by omega)
        rwa [show p + (j + 1) = p + 1 + j by omega] at this)
      (by rwa [show p + (n + 1) = p + 1 + n by omega] at hend)
    refine ⟨st', ?_, ?_, ?_⟩
    · simp only [aliyunDescribeDomainsLoop, hnames, hlen, if_false]
      exact hrun
    · rw [htrace, List.range'_succ p (n + 1)]
      simp [State.log]
    · rw [hslice, List.range'_succ p n, List.flatMap_cons, appendNames_eq]
      simp [State.log, aliyunDomainsPage, hnames]

theorem writeDomainsTxt_trace (env : Env) (st : State) (line : String) :
    (writeDomainsTxt env st line).1.trace = st.trace := by
  unfold writeDomainsTxt
  cases env.writeDomainsTxt st.domainsTxtWrites line <;> rfl

theorem aliyunRecordLoop_trace (env : Env) (records : List AliyunRecord) (st : State) :
    (aliyunRecordLoop env records st).trace = st.trace := by
  unfold aliyunRecordLoop
  induction records generalizing st with
  | nil => rfl
  | cons r rest ih =>
    rw [List.foldl_cons, ih]
    by_cases h : aliyunRecordFilter r = true
    · simp [aliyunRecordStep, h, writeDomainsTxt_trace]
    · simp [aliyunRecordStep, h]

theorem aliyunRecordsInnerLoop_pages (env : Env) (domainName : String) (n : Nat) :
    ∀ (fuel p : Nat) (st : State) (res : Option GoError), n < fuel →
      (∀ j, j < n → ∃ records,
        env.aliyunDescribeDomainRecords domainName (p + j) 20 = .ok records ∧ records ≠ []) →
      ((env.aliyunDescribeDomainRecords domainName (p + n) 20 = .ok [] ∧ res = none) ∨
        (∃ e, env.aliyunDescribeDomainRecords domainName (p + n) 20 = .error e ∧
          res = some e)) →
      ∃ st', aliyunRecordsInnerLoop env domainName fuel p st = some (st', res) ∧
        st'.trace = st.trace ++
          (List.range' p (n + 1)).map (fun q => Event.aliyunRecordsRequest domainName q 20) ∧
        st'.recordSlice = st.recordSlice ++
          (((List.range' p n).flatMap (aliyunRecordsPage env domainName)).filter
            aliyunRecordFilter).map (fun r => r.RR ++ "." ++ r.DomainName) := by
  induction n with
  | zero =>
    intro fuel p st res hfuel _ hend
    obtain ⟨f, rfl⟩ : ∃ f, fuel = f + 1 := ⟨fuel - 1, by omega⟩
    rcases hend with ⟨hpage, rfl⟩ | ⟨e, hpage, rfl⟩
    · rw [Nat.add_zero] at hpage
      exact ⟨st.log (.aliyunRecordsRequest domainName p 20),
        by simp [aliyunRecordsInnerLoop, hpage], by simp [State.log], by simp [State.log]⟩
    · rw [Nat.add_zero] at hpage
      exact ⟨st.log (.aliyunRecordsRequest domainName p 20),
        by simp [aliyunRecordsInnerLoop, hpage], by simp [State.log], by simp [State.log]⟩
  | succ n ih =>
    intro fuel p st res hfuel hpages hend
    obtain ⟨f, rfl⟩ : ∃ f, fuel = f + 1 := ⟨fuel - 1, by omega⟩
    obtain ⟨records, hrecords, hne⟩ := hpages 0 (Nat.succ_pos n)
    rw [Nat.add_zero] at hrecords
    have hlen : records.length ≠ 0 := by
      intro h
      exact hne (List.length_eq_zero.mp h)
    obtain ⟨st', hrun, htrace, hslice⟩ := ih f (p + 1)
      (aliyunRecordLoop env records (st.log (.aliyunRecordsRequest domainName p 20))) res
      (by omega)
      (fun j hj => by
        have := hpages (j + 1) (by omega)
        rwa [show p + (j + 1) = p + 1 + j by omega] at this)
      (by rwa [show p + (n + 1) = p + 1 + n by omega] at hend)
    refine ⟨st', ?_, ?_, ?_⟩
    · simp only [aliyunRecordsInnerLoop, hrecords, hlen, if_false]
      exact hrun
    · rw [htrace, aliyunRecordLoop_trace, List.range'_succ p (n + 1)]
      simp [State.log]
    · rw [hslice, aliyunRecordLoop_recordSlice, List.range'_succ p n, List.flatMap_cons]
      simp [State.log, aliyunRecordsPage, hrecords]

/-- C8: with the Aliyun provider a function from page number to a page or an error,
if pages `1..k-1` are non-empty and page `k` is empty, `AliyunDescribeDomains`
terminates (any iteration bound of at least `k` suffices), requests exactly the
pages `1, ..., k` with page size 20, returns nil and appends the names of pages
`1..k-1` in order; if instead the call for page `j` fails after non-empty pages
`1..j-1`, it requests pages `1, ..., j`, returns that error and has appended the
names of pages `1..j-1` only.  The page loop of `AliyunDescribeDomainRecords` for a
domain visits the pages in the same way, collecting the accepted records. -/
theorem C8_aliyun_paging (env : Env) (st : State) (domainName : String) :
    (∀ k fuel, 1 ≤ k → k ≤ fuel →
      (∀ j, 1 ≤ j → j < k →
        ∃ names, env.aliyunDescribeDomains j 20 = .ok names ∧ names ≠ []) →
      env.aliyunDescribeDomains k 20 = .ok [] →
      ∃ st', AliyunDescribeDomains env fuel st = some (st', none) ∧
        st'.trace = st.trace ++ [Event.call "AliyunDescribeDomains"] ++
          (List.range' 1 k).map (fun q => Event.aliyunDomainsRequest q 20) ++
          [Event.ret "AliyunDescribeDomains" none] ∧
        st'.aliyunDomainSlice = st.aliyunDomainSlice ++
          (List.range' 1 (k - 1)).flatMap (aliyunDomainsPage env)) ∧
    (∀ j fuel e, 1 ≤ j → j ≤ fuel →
      (∀ i, 1 ≤ i → i < j →
        ∃ names, env.aliyunDescribeDomains i 20 = .ok names ∧ names ≠ []) →
      env.aliyunDescribeDomains j 20 = .error e →
      ∃ st', AliyunDescribeDomains env fuel st = some (st', some e) ∧
        st'.trace = st.trace ++ [Event.call "AliyunDescribeDomains"] ++
          (List.range' 1 j).map (fun q => Event.aliyunDomainsRequest q 20) ++
          [Event.ret "AliyunDescribeDomains" (some e)] ∧
        st'.aliyunDomainSlice = st.aliyunDomainSlice ++
          (List.range' 1 (j - 1)).flatMap (aliyunDomainsPage env)) ∧
    (∀ k fuel, 1 ≤ k → k ≤ fuel →
      (∀ j, 1 ≤ j → j < k →
        ∃ records, env.aliyunDescribeDomainRecords domainName j 20 = .ok records ∧
          records ≠ []) →
      env.aliyunDescribeDomainRecords domainName k 20 = .ok [] →
      ∃ st', aliyunRecordsInnerLoop env domainName fuel 1 st = some (st', none) ∧
        st'.trace = st.trace ++
          (List.range' 1 k).map (fun q => Event.aliyunRecordsRequest domainName q 20) ∧
        st'.recordSlice = st.recordSlice ++
          (((List.range' 1 (k - 1)).flatMap (aliyunRecordsPage env domainName)).filter
            aliyunRecordFilter).map (fun r => r.RR ++ "." ++ r.DomainName)) ∧
    (∀ j fuel e, 1 ≤ j → j ≤ fuel →
      (∀ i, 1 ≤ i → i < j →
        ∃ records, env.aliyunDescribeDomainRecords domainName i 20 = .ok records ∧
          records ≠ []) →
      env.aliyunDescribeDomainRecords domainName j 20 = .error e →
      ∃ st', aliyunRecordsInnerLoop env domainName fuel 1 st = some (st', some e) ∧
        st'.trace = st.trace ++
          (List.range' 1 j).map (fun q => Event.aliyunRecordsRequest domainName q 20) ∧
        st'.recordSlice = st.recordSlice ++
          (((List.range' 1 (j - 1)).flatMap (aliyunRecordsPage env domainName)).filter
            aliyunRecordFilter).map (fun r => r.RR ++ "." ++ r.DomainName)) := by
  have hdom : ∀ (k fuel : Nat) (res : Option GoError), 1 ≤ k → k ≤ fuel →
      (∀ j, 1 ≤ j → j < k →
        ∃ names, env.aliyunDescribeDomains j 20 = .ok names ∧ names ≠ []) →
      ((env.aliyunDescribeDomains k 20 = .ok [] ∧ res = none) ∨
        (∃ e, env.aliyunDescribeDomains k 20 = .error e ∧ res = some e)) →
      ∃ st', AliyunDescribeDomains env fuel st = some (st', res) ∧
        st'.trace = st.trace ++ [Event.call "AliyunDescribeDomains"] ++
          (List.range' 1 k).map (fun q => Event.aliyunDomainsRequest q 20) ++
          [Event.ret "AliyunDescribeDomains" res] ∧
        st'.aliyunDomainSlice = st.aliyunDomainSlice ++
          (List.range' 1 (k - 1)).flatMap (aliyunDomainsPage env) := by
    intro k fuel res hk hfuel hpages hend
    obtain ⟨n, rfl⟩ : ∃ n, k = n + 1 := ⟨k - 1, by omega⟩
    obtain ⟨st', hrun, htrace, hslice⟩ :=
      aliyunDescribeDomainsLoop_pages env n fuel 1 (st.log (.call "AliyunDescribeDomains")) res
        (by omega) (fun j hj => hpages (1 + j) (by omega) (by omega))
        (by rwa [Nat.add_comm 1 n])
    refine ⟨st'.log (.ret "AliyunDescribeDomains" res), ?_, ?_, ?_⟩
    · simp [AliyunDescribeDomains, hrun]
    · simp [State.log, htrace]
    · simpa [State.log] using hslice
  have hrec : ∀ (k fuel : Nat) (res : Option GoError), 1 ≤ k → k ≤ fuel →
      (∀ j, 1 ≤ j → j < k →
        ∃ records, env.aliyunDescribeDomainRecords domainName j 20 = .ok records ∧
          records ≠ []) →
      ((env.aliyunDescribeDomainRecords domainName k 20 = .ok [] ∧ res = none) ∨
        (∃ e, env.aliyunDescribeDomainRecords domainName k 20 = .error e ∧ res = some e)) →
      ∃ st', aliyunRecordsInnerLoop env domainName fuel 1 st = some (st', res) ∧
        st'.trace = st.trace ++
          (List.range' 1 k).map (fun q => Event.aliyunRecordsRequest domainName q 20) ∧
        st'.recordSlice = st.recordSlice ++
          (((List.range' 1 (k - 1)).flatMap (aliyunRecordsPage env domainName)).filter
            aliyunRecordFilter).map (fun r => r.RR ++ "." ++ r.DomainName) := by
    intro k fuel res hk hfuel hpages hend
    obtain ⟨n, rfl⟩ : ∃ n, k = n + 1 := ⟨k - 1, by omega⟩
    exact aliyunRecordsInnerLoop_pages env domainName n fuel 1 st res
      (by omega) (fun j hj => hpages (1 + j) (by omega) (by omega))
      (by rwa [Nat.add_comm 1 n])
  refine ⟨?_, ?_, ?_, ?_⟩
  · intro k fuel hk hfuel hpages hend
    exact hdom k fuel none hk hfuel hpages (Or.inl ⟨hend, rfl⟩)
  · intro j fuel e hj hfuel hpages hend
    exact hdom j fuel (some e) hj hfuel hpages (Or.inr ⟨e, hend, rfl⟩)
  · intro k fuel hk hfuel hpages hend
    exact hrec k fuel none hk hfuel hpages (Or.inl ⟨hend, rfl⟩)
  · intro j fuel e hj hfuel hpages hend
    exact hrec j fuel (some e) hj hfuel hpages (Or.inr ⟨e, hend, rfl⟩)

theorem C8_aliyun_paging_witness :
    (∃ st', AliyunDescribeDomains pagedEnv 3 (init (start "" "" "")) = some (st', none) ∧
      st'.trace = (init (start "" "" "")).trace ++ [Event.call "AliyunDescribeDomains"] ++
        (List.range' 1 3).map (fun q => Event.aliyunDomainsRequest q 20) ++
        [Event.ret "AliyunDescribeDomains" none] ∧
      st'.aliyunDomainSlice = (init (start "" "" "")).aliyunDomainSlice ++
        (List.range' 1 (3 - 1)).flatMap (aliyunDomainsPage pagedEnv)) ∧
    (∃ st', aliyunRecordsInnerLoop pagedEnv "a.com" 2 1 (init (start "" "" "")) =
        some (st', some (.other "i/o timeout")) ∧
      st'.trace = (init (start "" "" "")).trace ++
        (List.range' 1 2).map (fun q => Event.aliyunRecordsRequest "a.com" q 20) ∧
      st'.recordSlice = (init (start "" "" "")).recordSlice ++
        (((List.range' 1 (2 - 1)).flatMap (aliyunRecordsPage pagedEnv "a.com")).filter
          aliyunRecordFilter).map (fun r => r.RR ++ "." ++ r.DomainName)) :=
  ⟨(C8_aliyun_paging pagedEnv (init (start "" "" "")) "a.com").1 3 3 (by decide) (by decide)
      (by
        intro j h1 h3
        interval_cases j
        · exact ⟨["a.com", "b.com"], rfl, by decide⟩
        · exact ⟨["c.com"], rfl, by decide⟩)
      rfl,
   (C8_aliyun_paging pagedEnv (init (start "" "" "")) "a.com").2.2.2 2 2 (.other "i/o timeout")
      (by decide) (by decide)
      (by
        intro i h1 h2
        interval_cases i
        exact ⟨[{ RR := "www", RecordType := "A", Status := "ENABLE", DomainName := "a.com" }],
          rfl, by decide⟩)
      rfl⟩

/-! ## The Tencent record list -/

theorem tencentRecordLoop_trace (env : Env) (domainName : String)
    (records : List TencentRecord) (acc : State × Option GoError) :
    (tencentRecordLoop env domainName records acc).1.trace = acc.1.trace := by
  unfold tencentRecordLoop
  induction records generalizing acc with
  | nil => rfl
  | cons r rest ih =>
    rw [List.foldl_cons, ih]
    by_cases h : tencentRecordFilter r = true
    · simp [tencentRecordStep, h, writeDomainsTxt_trace]
    · simp [tencentRecordStep, h]

/-- When every call succeeds, the loop of `TencentDescribeDomainRecords` makes one
request per domain, with offset 0 and limit 3000, and collects the accepted
records among those the provider returns for it. -/
theorem tencentRecordsLoop_api (env : Env) (holdings : String → List TencentRecord)
    (henv : env.tencentDescribeRecordList = tencentApi holdings) (domains : List String) :
    ∀ (st : State) (err : Option GoError),
      (tencentRecordsLoop env domains st err).2 = none ∧
      (tencentRecordsLoop env domains st err).1.trace = st.trace ++
        domains.map (fun d => Event.tencentRecordListRequest d 0 3000) ∧
      (tencentRecordsLoop env domains st err).1.recordSlice = st.recordSlice ++
        domains.flatMap (fun d =>
          (((holdings d).take 3000).filter tencentRecordFilter).map
            (fun r => r.Name ++ "." ++ d)) := by
  induction domains with
  | nil => intro st err; simp [tencentRecordsLoop]
  | cons d rest ih =>
    intro st err
    simp only [tencentRecordsLoop, henv, tencentApi, List.drop_zero]
    refine ⟨(ih _ _).1, ?_, ?_⟩
    · rw [(ih _ _).2.1, tencentRecordLoop_trace]
      simp [State.log]
    · rw [(ih _ _).2.2, tencentRecordLoop_recordSlice]
      simp [State.log]

theorem TencentDescribeDomainRecords_api (env : Env) (holdings : String → List TencentRecord)
    (henv : env.tencentDescribeRecordList = tencentApi holdings) (domains : List String)
    (st : State) :
    (TencentDescribeDomainRecords env domains st).2 = none ∧
    (TencentDescribeDomainRecords env domains st).1.trace = st.trace ++
      [Event.call "TencentDescribeDomainRecords"] ++
      domains.map (fun d => Event.tencentRecordListRequest d 0 3000) ++
      [Event.ret "TencentDescribeDomainRecords" none] ∧
    (TencentDescribeDomainRecords env domains st).1.recordSlice = st.recordSlice ++
      domains.flatMap (fun d =>
        (((holdings d).take 3000).filter tencentRecordFilter).map
          (fun r => r.Name ++ "." ++ d)) := by
  obtain ⟨h1, h2, h3⟩ := tencentRecordsLoop_api env holdings henv domains
    (st.log (.call "TencentDescribeDomainRecords")) none
  rcases hloop : tencentRecordsLoop env domains
    (st.log (.call "TencentDescribeDomainRecords")) none with ⟨st1, e1⟩
  rw [hloop] at h1 h2 h3
  simp only at h1 h2 h3
  subst h1
  have hT : TencentDescribeDomainRecords env domains st =
      (st1.log (.ret "TencentDescribeDomainRecords" none), none) := by
    simp only [TencentDescribeDomainRecords, hloop]
  rw [hT]
  refine ⟨rfl, ?_, ?_⟩
  · show st1.trace ++ [Event.ret "TencentDescribeDomainRecords" none] = _
    rw [h2]
    simp [State.log]
  · show st1.recordSlice = _
    rw [h3]
    rfl

/-- C9 (counterexample): Tencent holds 3001 records for `big.com`; the last one,
`api`, passes the filter, but `TencentDescribeDomainRecords` makes the single
request (offset 0, limit 3000) and returns nil, and `api.big.com` is not in the
candidate list. -/
theorem C9_record_beyond_3000_is_missed :
    (bigHoldings "big.com").length = 3001 ∧
    ({ Name := "api", RecordType := "A", Status := "ENABLE" } : TencentRecord) ∈
      bigHoldings "big.com" ∧
    tencentRecordFilter { Name := "api", RecordType := "A", Status := "ENABLE" } = true ∧
    (TencentDescribeDomainRecords bigEnv ["big.com"] (init (start "" "" ""))).2 = none ∧
    (TencentDescribeDomainRecords bigEnv ["big.com"] (init (start "" "" ""))).1.trace =
      [Event.call "TencentDescribeDomainRecords",
       Event.tencentRecordListRequest "big.com" 0 3000,
       Event.ret "TencentDescribeDomainRecords" none] ∧
    "api.big.com" ∉
      (TencentDescribeDomainRecords bigEnv ["big.com"] (init (start "" "" ""))).1.recordSlice := by
  obtain ⟨h1, h2, h3⟩ := TencentDescribeDomainRecords_api bigEnv bigHoldings rfl ["big.com"]
    (init (start "" "" ""))
  refine ⟨?_, List.mem_append_right _ (List.mem_singleton_self _), by decide, h1, ?_, ?_⟩
  · simp only [bigHoldings, List.length_append, List.length_replicate, List.length_singleton]
  · rw [h2]
    rfl
  · rw [h3]
    have htake : (bigHoldings "big.com").take 3000 =
        List.replicate 3000 { Name := "www", RecordType := "A", Status := "ENABLE" } := by
      unfold bigHoldings
      rw [List.take_append_of_le_length (by rw [List.length_replicate]),
        List.take_of_length_le (by rw [List.length_replicate])]
    have hinit : (init (start "" "" "")).recordSlice = [] := rfl
    rw [hinit]
    simp only [List.nil_append, List.flatMap_cons, List.flatMap_nil, List.append_nil, htake]
    intro hmem
    obtain ⟨r, hr, hname⟩ := List.mem_map.mp hmem
    have hrw : r = { Name := "www", RecordType := "A", Status := "ENABLE" } :=
      List.eq_of_mem_replicate (List.mem_of_mem_filter hr)
    subst hrw
    revert hname
    decide

/-- C9 (amended): `TencentDescribeDomainRecords` makes exactly one request per
domain, with offset 0 and limit 3000; when every domain holds at most 3000
records and the calls succeed, it returns nil, every record of every domain is
examined, and the candidate list gains label + "." + domain for exactly the
records that pass the filter, so each of them appears in it. -/
theorem C9_tencent_single_request_up_to_3000 (env : Env)
    (holdings : String → List TencentRecord) (domains : List String) (st : State)
    (henv : env.tencentDescribeRecordList = tencentApi holdings)
    (hsize : ∀ d ∈ domains, (holdings d).length ≤ 3000) :
    (TencentDescribeDomainRecords env domains st).2 = none ∧
    (TencentDescribeDomainRecords env domains st).1.trace = st.trace ++
      [Event.call "TencentDescribeDomainRecords"] ++
      domains.map (fun d => Event.tencentRecordListRequest d 0 3000) ++
      [Event.ret "TencentDescribeDomainRecords" none] ∧
    (TencentDescribeDomainRecords env domains st).1.recordSlice = st.recordSlice ++
      domains.flatMap (fun d =>
        ((holdings d).filter tencentRecordFilter).map (fun r => r.Name ++ "." ++ d)) ∧
    (∀ d ∈ domains, ∀ r ∈ holdings d, tencentRecordFilter r = true →
      (r.Name ++ "." ++ d) ∈ (TencentDescribeDomainRecords env domains st).1.recordSlice) := by
  obtain ⟨h1, h2, h3⟩ := TencentDescribeDomainRecords_api env holdings henv domains st
  have hflat : domains.flatMap (fun d =>
        (((holdings d).take 3000).filter tencentRecordFilter).map
          (fun r => r.Name ++ "." ++ d)) =
      domains.flatMap (fun d =>
        ((holdings d).filter tencentRecordFilter).map (fun r => r.Name ++ "." ++ d)) := by
    have hfun : ∀ d ∈ domains,
        (((holdings d).take 3000).filter tencentRecordFilter).map
          (fun r => r.Name ++ "." ++ d) =
        ((holdings d).filter tencentRecordFilter).map (fun r => r.Name ++ "." ++ d) := by
      intro d hd
      rw [List.take_of_length_le (hsize d hd)]
    clear h3 h2 h1 hsize
    induction domains with
    | nil => rfl
    | cons d rest ih =>
      simp only [List.flatMap_cons]
      rw [hfun d (List.mem_cons_self _ _),
        ih (fun x hx => hfun x (List.mem_cons_of_mem _ hx))]
  rw [hflat] at h3
  refine ⟨h1, h2, h3, ?_⟩
  intro d hd r hr hf
  rw [h3]
  apply List.mem_append_right
  rw [List.mem_flatMap]
  exact ⟨d, hd, List.mem_map.mpr ⟨r, List.mem_filter.mpr ⟨hr, hf⟩, rfl⟩⟩

theorem C9_tencent_single_request_up_to_3000_witness :
    (smallEnv.tencentDescribeRecordList = tencentApi (fun _ =>
      [{ Name := "www", RecordType := "A", Status := "ENABLE" },
       { Name := "dev", RecordType := "A", Status := "ENABLE" }])) ∧
    (∀ d ∈ ["example.com"], ((fun _ =>
      [{ Name := "www", RecordType := "A", Status := "ENABLE" },
       { Name := "dev", RecordType := "A", Status := "ENABLE" }] :
        String → List TencentRecord) d).length ≤ 3000) ∧
    "www.example.com" ∈
      (TencentDescribeDomainRecords smallEnv ["example.com"] (init (start "" "" ""))).1.recordSlice :=
  ⟨rfl, by simp,
    (C9_tencent_single_request_up_to_3000 smallEnv _ ["example.com"] (init (start "" "" ""))
      rfl (by simp)).2.2.2 "example.com" (by simp)
      { Name := "www", RecordType := "A", Status := "ENABLE" } (by simp) (by decide)⟩

/-! ## Invariants of a run -/

theorem Extends.refl (st : State) : Extends st st :=
  ⟨rfl, [], by simp, by simp⟩

theorem Extends.trans {a b c : State} (h₁ : Extends a b) (h₂ : Extends b c) : Extends a c := by
  obtain ⟨hm₁, l₁, ht₁, hn₁⟩ := h₁
  obtain ⟨hm₂, l₂, ht₂, hn₂⟩ := h₂
  refine ⟨hm₂.trans hm₁, l₁ ++ l₂, by rw [ht₂, ht₁, List.append_assoc], ?_⟩
  intro e he
  rcases List.mem_append.mp he with he | he
  · exact hn₁ e he
  · exact hn₂ e he

theorem Extends.log (st : State) (e : Event) (he : e.isNotice = false) :
    Extends st (st.log e) :=
  ⟨rfl, [e], rfl, by simpa using he⟩

theorem Extends.mem_trace {st st' : State} (h : Extends st st') {e : Event}
    (he : e ∈ st.trace) : e ∈ st'.trace := by
  obtain ⟨-, l, ht, -⟩ := h
  rw [ht]
  exact List.mem_append_left _ he

theorem StatusSound.extends {st st' : State} (hs : StatusSound st) (h : Extends st st') :
    StatusSound st' := by
  obtain ⟨hm, l, ht, hn⟩ := h
  refine ⟨?_, ?_⟩
  · intro e he
    rw [ht] at he
    rcases List.mem_append.mp he with he | he
    · exact hs.1 e he
    · exact hn e he
  · intro key op hop
    rw [hm, ht]
    rcases hs.2 key op hop with hf | ⟨hok, hc, hr⟩
    · exact Or.inl hf
    · exact Or.inr ⟨hok, List.mem_append_left _ hc, List.mem_append_left _ hr⟩

theorem StatusSound.setFail {st : State} (hs : StatusSound st) (key : String) :
    StatusSound (st.setStatus key [failText, failColor]) := by
  refine ⟨hs.1, ?_⟩
  intro k op hop
  by_cases hk : k = key
  · left
    simp [State.setStatus, StatusMap.set, hk]
  · simpa [State.setStatus, StatusMap.set, hk] using hs.2 k op hop

theorem StatusSound.setSuccess {st : State} (hs : StatusSound st) (key op : String)
    (hop : stepOperation key = some op) (hc : Event.call op ∈ st.trace)
    (hr : Event.ret op none ∈ st.trace) :
    StatusSound (st.setStatus key [successText, successColor]) := by
  refine ⟨hs.1, ?_⟩
  intro k op' hop'
  by_cases hk : k = key
  · right
    subst hk
    have : op' = op := Option.some.inj (hop'.symm.trans hop)
    subst this
    exact ⟨by simp [State.setStatus, StatusMap.set], hc, hr⟩
  · simpa [State.setStatus, StatusMap.set, hk] using hs.2 k op' hop'

theorem StatusSound.setOther {st : State} (hs : StatusSound st) (key : String)
    (value : List String) (hkey : stepOperation key = none) :
    StatusSound (st.setStatus key value) := by
  refine ⟨hs.1, ?_⟩
  intro k op hop
  have hk : k ≠ key := by
    intro h
    rw [h, hkey] at hop
    exact Option.noConfusion hop
  simpa [State.setStatus, StatusMap.set, hk] using hs.2 k op hop

theorem statusSound_init (st : State) (htrace : st.trace = []) : StatusSound (init st) := by
  refine ⟨?_, ?_⟩
  · simp [init, State.setStatus, htrace]
  · intro key op hop
    left
    unfold stepOperation at hop
    split at hop <;>
      first
      | exact Option.noConfusion hop
      | simp [init, State.setStatus, StatusMap.set, failText, failColor]

theorem Extends.of_eq {st st' : State} (hm : st'.setpStatusMap = st.setpStatusMap)
    (ht : st'.trace = st.trace) : Extends st st' :=
  ⟨hm, [], by simp [ht], by simp⟩

theorem writeDomainsTxt_extends (env : Env) (st : State) (line : String) :
    Extends st (writeDomainsTxt env st line).1 := by
  unfold writeDomainsTxt
  cases env.writeDomainsTxt st.domainsTxtWrites line <;> exact Extends.of_eq rfl rfl

theorem aliyunRecordLoop_extends (env : Env) (records : List AliyunRecord) (st : State) :
    Extends st (aliyunRecordLoop env records st) := by
  unfold aliyunRecordLoop
  induction records generalizing st with
  | nil => exact Extends.refl st
  | cons r rest ih =>
    rw [List.foldl_cons]
    refine Extends.trans ?_ (ih _)
    unfold aliyunRecordStep
    split
    · exact Extends.trans (Extends.of_eq rfl rfl) (writeDomainsTxt_extends env _ _)
    · exact Extends.refl st

theorem tencentRecordLoop_extends (env : Env) (domainName : String)
    (records : List TencentRecord) (acc : State × Option GoError) :
    Extends acc.1 (tencentRecordLoop env domainName records acc).1 := by
  unfold tencentRecordLoop
  induction records generalizing acc with
  | nil => exact Extends.refl acc.1
  | cons r rest ih =>
    rw [List.foldl_cons]
    refine Extends.trans ?_ (ih _)
    unfold tencentRecordStep
    split
    · exact Extends.trans (Extends.of_eq rfl rfl) (writeDomainsTxt_extends env _ _)
    · exact Extends.refl acc.1

theorem aliyunDescribeDomainsLoop_extends (env : Env) :
    ∀ (fuel p : Nat) (st : State) (r : State × Option GoError),
      aliyunDescribeDomainsLoop env fuel p st = some r → Extends st r.1 := by
  intro fuel
  induction fuel with
  | zero => intro p st r h; simp [aliyunDescribeDomainsLoop] at h
  | succ f ih =>
    intro p st r h
    simp only [aliyunDescribeDomainsLoop] at h
    have hlog : Extends st (st.log (.aliyunDomainsRequest p 20)) := Extends.log st _ rfl
    split at h
    · cases h
      exact hlog
    · split at h
      · cases h
        exact hlog
      · have hrest := ih _ _ _ h
        exact Extends.trans (Extends.trans hlog (Extends.of_eq rfl rfl)) hrest

theorem aliyunRecordsInnerLoop_extends (env : Env) (domainName : String) :
    ∀ (fuel p : Nat) (st : State) (r : State × Option GoError),
      aliyunRecordsInnerLoop env domainName fuel p st = some r → Extends st r.1 := by
  intro fuel
  induction fuel with
  | zero => intro p st r h; simp [aliyunRecordsInnerLoop] at h
  | succ f ih =>
    intro p st r h
    simp only [aliyunRecordsInnerLoop] at h
    have hlog : Extends st (st.log (.aliyunRecordsRequest domainName p 20)) :=
      Extends.log st _ rfl
    split at h
    · cases h
      exact hlog
    · split at h
      · cases h
        exact hlog
      · exact Extends.trans (Extends.trans hlog (aliyunRecordLoop_extends env _ _)) (ih _ _ _ h)

theorem aliyunRecordsOuterLoop_extends (env : Env) (fuel : Nat) :
    ∀ (domains : List String) (st : State) (r : State × Option GoError),
      aliyunRecordsOuterLoop env fuel domains st = some r → Extends st r.1 := by
  intro domains
  induction domains with
  | nil =>
    intro st r h
    simp only [aliyunRecordsOuterLoop] at h
    cases h
    exact Extends.refl st
  | cons d rest ih =>
    intro st r h
    simp only [aliyunRecordsOuterLoop] at h
    split at h
    · cases h
    · rename_i st1 e hinner
      cases h
      exact aliyunRecordsInnerLoop_extends env d fuel 1 st _ hinner
    · rename_i st1 hinner
      exact Extends.trans (aliyunRecordsInnerLoop_extends env d fuel 1 st _ hinner) (ih _ _ h)

theorem tencentRecordsLoop_extends (env : Env) :
    ∀ (domains : List String) (st : State) (err : Option GoError),
      Extends st (tencentRecordsLoop env domains st err).1 := by
  intro domains
  induction domains with
  | nil => intro st err; exact Extends.refl st
  | cons d rest ih =>
    intro st err
    simp only [tencentRecordsLoop]
    have hlog : Extends st (st.log (.tencentRecordListRequest d 0 3000)) :=
      Extends.log st _ rfl
    split
    · split
      · exact hlog
      · exact hlog
    · exact Extends.trans (Extends.trans hlog (tencentRecordLoop_extends env d _ _)) (ih _ _)

theorem ran_of_log (op : String) (err : Option GoError) (st mid : State)
    (h : Extends (st.log (.call op)) mid) : Ran op err st (mid.log (.ret op err)) := by
  refine ⟨Extends.trans (Extends.trans (Extends.log st (.call op) rfl) h)
    (Extends.log mid (.ret op err) rfl), ?_, ?_⟩
  · apply Extends.mem_trace (Extends.log mid (.ret op err) rfl)
    apply Extends.mem_trace h
    simp [State.log]
  · simp [State.log]

theorem StatusSound.ranSuccess {st st' : State} {op : String} (hs : StatusSound st)
    (hr : Ran op none st st') (key : String) (hop : stepOperation key = some op) :
    StatusSound (st'.setStatus key [successText, successColor]) :=
  (hs.extends hr.1).setSuccess key op hop hr.2.1 hr.2.2

theorem GetConfig_extends (env : Env) (st : State) : Extends st (GetConfig env st).1 := by
  unfold GetConfig
  cases env.readInConfig <;>
    exact Extends.trans (Extends.log st (.call "GetConfig") rfl)
      (Extends.log _ (.ret "GetConfig" _) rfl)

theorem AliyunInit_ran (env : Env) (st : State) :
    Ran "AliyunInit" (AliyunInit env st).2 st (AliyunInit env st).1 :=
  ran_of_log _ _ st _ (Extends.refl _)

theorem TencentInit_ran (env : Env) (st : State) :
    Ran "TencentInit" (TencentInit env st).2 st (TencentInit env st).1 :=
  ran_of_log _ _ st _ (Extends.refl _)

theorem ReloadPrometheus_ran (env : Env) (st : State) :
    Ran "ReloadPrometheus" (ReloadPrometheus env st).2 st (ReloadPrometheus env st).1 :=
  ran_of_log _ _ st _ (Extends.refl _)

theorem AliyunDescribeDomains_ran (env : Env) (fuel : Nat) (st st' : State)
    (err : Option GoError) (h : AliyunDescribeDomains env fuel st = some (st', err)) :
    Ran "AliyunDescribeDomains" err st st' := by
  simp only [AliyunDescribeDomains] at h
  split at h
  · cases h
  · rename_i st1 e hloop
    cases h
    exact ran_of_log _ _ st st1 (aliyunDescribeDomainsLoop_extends env _ _ _ _ hloop)

theorem TencentDescribeDomains_ran (env : Env) (st : State) :
    Ran "TencentDescribeDomains" (TencentDescribeDomains env st).2 st
      (TencentDescribeDomains env st).1 := by
  simp only [TencentDescribeDomains]
  split
  · exact ran_of_log _ _ st _ (Extends.log _ .tencentDomainListRequest rfl)
  · split
    · exact ran_of_log _ _ st _ (Extends.log _ .tencentDomainListRequest rfl)
    · exact ran_of_log _ _ st _
        (Extends.trans (Extends.log _ .tencentDomainListRequest rfl) (Extends.of_eq rfl rfl))

theorem AliyunDescribeDomainRecords_ran (env : Env) (fuel : Nat) (domains : List String)
    (st st' : State) (err : Option GoError)
    (h : AliyunDescribeDomainRecords env fuel domains st = some (st', err)) :
    Ran "AliyunDescribeDomainRecords" err st st' := by
  simp only [AliyunDescribeDomainRecords] at h
  split at h
  · cases h
  · rename_i st1 e hloop
    cases h
    exact ran_of_log _ _ st st1 (aliyunRecordsOuterLoop_extends env _ _ _ _ hloop)

theorem TencentDescribeDomainRecords_ran (env : Env) (domains : List String) (st : State) :
    Ran "TencentDescribeDomainRecords" (TencentDescribeDomainRecords env domains st).2 st
      (TencentDescribeDomainRecords env domains st).1 := by
  simp only [TencentDescribeDomainRecords]
  exact ran_of_log _ _ st _ (tencentRecordsLoop_extends env _ _ _)

theorem ExpirationHttpsDomain_fields (env : Env) (st : State) :
    (ExpirationHttpsDomain env st).2 = .ret none ∧
    (ExpirationHttpsDomain env st).1.setpStatusMap = st.setpStatusMap ∧
    ∃ l, (ExpirationHttpsDomain env st).1.trace =
        st.trace ++ (Event.call "ExpirationHttpsDomain" :: l ++
          [Event.ret "ExpirationHttpsDomain" none]) ∧
      ∀ e ∈ l, e.isNotice = false := by
  unfold ExpirationHttpsDomain
  rcases h1 : env.createHttpsdomainTxt with _ | e1
  · rcases h2 : env.createTemplateYml with _ | e2
    · rcases h3 : env.openDomainsTxt with _ | e3
      · obtain ⟨txt, htxt⟩ := runProbeTasks_eq env
          (env.schedule (scannedDomains st.domainsTxt).enum).val
          { httpsdomainTxt := "", httpsDomainSum := st.httpsDomainSum,
            templateString := ["- targets:\n"] }
        simp only [State.log, htxt]
        refine ⟨by simp, by split <;> rfl,
          [.templateWrite (builderString ((["- targets:\n"] ++
            List.map (fun task => "   - https://" ++ task.2 ++ "\n")
              (recordedTasks env (env.schedule (scannedDomains st.domainsTxt).enum).val)) ++
            ["  labels:\n", "    group: web\n", "    department: test-auto\n"]))],
          by split <;> simp, by simp [Event.isNotice]⟩
      · exact ⟨rfl, rfl, [], by simp [State.log], by simp⟩
    · exact ⟨rfl, rfl, [], by simp [State.log], by simp⟩
  · exact ⟨rfl, rfl, [], by simp [State.log], by simp⟩

/-- Go `ExpirationHttpsDomain` always returns nil: it never panics, and it returns
nil also when a file cannot be opened. -/
theorem ExpirationHttpsDomain_ran (env : Env) (st : State) :
    (ExpirationHttpsDomain env st).2 = .ret none ∧
    Ran "ExpirationHttpsDomain" none st (ExpirationHttpsDomain env st).1 := by
  obtain ⟨h2, hm, l, ht, hl⟩ := ExpirationHttpsDomain_fields env st
  refine ⟨h2, ⟨hm, _, ht, ?_⟩, ?_, ?_⟩
  · intro e he
    simp only [List.mem_cons, List.mem_append, List.not_mem_nil, or_false] at he
    rcases he with (rfl | he) | rfl
    · rfl
    · exact hl e he
    · rfl
  · rw [ht]
    simp
  · rw [ht]
    simp

theorem ClientInit_sound (env : Env) (st : State) (hs : StatusSound st) :
    StatusSound (ClientInit env st).1 := by
  unfold ClientInit
  have hA := AliyunInit_ran env st
  split
  · rename_i st1 e heq
    simp only [heq] at hA
    exact (hs.extends hA.1).setFail _
  · rename_i st1 heq
    simp only [heq] at hA
    have hs1 := hs.ranSuccess hA "aliyunInitStatus" (by decide)
    have hT := TencentInit_ran env (st1.setStatus "aliyunInitStatus" [successText, successColor])
    dsimp only
    split
    · rename_i st2 e heq2
      simp only [heq2] at hT
      exact (hs1.extends hT.1).setFail _
    · rename_i st2 heq2
      simp only [heq2] at hT
      exact hs1.ranSuccess hT "tencentInitStatus" (by decide)

theorem DescribeDomains_sound (env : Env) (fuel : Nat) (st st' : State) (ctl : Ctl)
    (h : DescribeDomains env fuel st = some (st', ctl)) (hs : StatusSound st) :
    StatusSound st' ∧ (ctl = .ret none ∨ ∃ e, ctl = .panic (.err e)) := by
  unfold DescribeDomains at h
  split at h
  · cases h
  · rename_i st1 e heq
    cases h
    have hA := AliyunDescribeDomains_ran env fuel st st1 _ heq
    exact ⟨(hs.extends hA.1).setFail _, Or.inr ⟨e, rfl⟩⟩
  · rename_i st1 heq
    have hA := AliyunDescribeDomains_ran env fuel st st1 _ heq
    have hs1 := hs.ranSuccess hA "aliyunDescribeDomainsStatus" (by decide)
    have hT := TencentDescribeDomains_ran env
      (st1.setStatus "aliyunDescribeDomainsStatus" [successText, successColor])
    try simp only at h
    split at h
    · rename_i st2 e heq2
      simp only [heq2] at hT
      cases h
      exact ⟨(hs1.extends hT.1).setFail _, Or.inr ⟨e, rfl⟩⟩
    · rename_i st2 heq2
      simp only [heq2] at hT
      cases h
      exact ⟨hs1.ranSuccess hT "tencentDescribeDomainsStatus" (by decide), Or.inl rfl⟩

theorem DescribeDomainRecords_sound (env : Env) (fuel : Nat) (st st' : State)
    (err : Option GoError) (h : DescribeDomainRecords env fuel st = some (st', err))
    (hs : StatusSound st) : StatusSound st' := by
  unfold DescribeDomainRecords at h
  split at h
  · cases h
    exact hs
  · have hs0 : StatusSound { st with domainsTxt := "" } := hs.extends (Extends.of_eq rfl rfl)
    try simp only at h
    split at h
    · cases h
    · rename_i st1 e heq
      cases h
      have hA := AliyunDescribeDomainRecords_ran env fuel _ _ st1 _ heq
      exact (hs0.extends hA.1).setFail _
    · rename_i st1 heq
      have hA := AliyunDescribeDomainRecords_ran env fuel _ _ st1 _ heq
      have hs1 := hs0.ranSuccess hA "aliyunDescribeDomainRecordsStatus" (by decide)
      have hT := TencentDescribeDomainRecords_ran env
        (st1.setStatus "aliyunDescribeDomainRecordsStatus"
          [successText, successColor]).tencentDomainSlice
        (st1.setStatus "aliyunDescribeDomainRecordsStatus" [successText, successColor])
      try simp only at h
      split at h
      · rename_i st2 e heq2
        simp only [heq2] at hT
        cases h
        exact (hs1.extends hT.1).setFail _
      · rename_i st2 heq2
        simp only [heq2] at hT
        cases h
        exact hs1.ranSuccess hT "tencentDescribeDomainRecordsStatus" (by decide)

/-- The body of `_main` keeps the status map sound, never calls the notifier and
ends by returning or by the panic of `DescribeDomains`. -/
theorem mainBody_sound (env : Env) (fuel : Nat) (st st' : State) (ctl : Ctl)
    (h : mainBody env fuel st = some (st', ctl)) (hs : StatusSound st) :
    StatusSound st' ∧ ((∃ err, ctl = .ret err) ∨ ∃ e, ctl = .panic (.err e)) := by
  unfold mainBody at h
  have hG := GetConfig_extends env st
  split at h
  · rename_i st1 e heq
    cases h
    simp only [heq] at hG
    exact ⟨hs.extends hG, Or.inl ⟨_, rfl⟩⟩
  · rename_i st1 heq
    simp only [heq] at hG
    have hs1 := hs.extends hG
    have hC := ClientInit_sound env st1 hs1
    split at h
    · rename_i st2 e heq2
      cases h
      simp only [heq2] at hC
      exact ⟨hC.setOther "initStatus" _ (by decide), Or.inl ⟨_, rfl⟩⟩
    · rename_i st2 heq2
      simp only [heq2] at hC
      have hs2 := hC.setOther "initStatus" [successText, successColor] (by decide)
      try dsimp only at h
      split at h
      · cases h
      · rename_i st3 v heq3
        cases h
        obtain ⟨hs3, hctl⟩ := DescribeDomains_sound env fuel _ _ _ heq3 hs2
        rcases hctl with hc | ⟨e, hc⟩
        · cases hc
        · exact ⟨hs3, Or.inr ⟨e, hc⟩⟩
      · rename_i st3 v heq3
        obtain ⟨-, hctl⟩ := DescribeDomains_sound env fuel _ _ _ heq3 hs2
        rcases hctl with hc | ⟨e, hc⟩ <;> cases hc
      · rename_i st3 e heq3
        obtain ⟨-, hctl⟩ := DescribeDomains_sound env fuel _ _ _ heq3 hs2
        rcases hctl with hc | ⟨e, hc⟩ <;> cases hc
      · rename_i st3 heq3
        obtain ⟨hs3, -⟩ := DescribeDomains_sound env fuel _ _ _ heq3 hs2
        have hs3' := hs3.setOther "describeDomainsStatus" [successText, successColor]
          (by decide)
        try dsimp only at h
        split at h
        · cases h
        · rename_i st4 e heq4
          cases h
          exact ⟨(DescribeDomainRecords_sound env fuel _ _ _ heq4 hs3').setOther
            "describeDomainRecordsStatus" _ (by decide), Or.inl ⟨_, rfl⟩⟩
        · rename_i st4 heq4
          have hs4 := (DescribeDomainRecords_sound env fuel _ _ _ heq4 hs3').setOther
            "describeDomainRecordsStatus" [successText, successColor] (by decide)
          obtain ⟨hE2, hE⟩ := ExpirationHttpsDomain_ran env
            (st4.setStatus "describeDomainRecordsStatus" [successText, successColor])
          try dsimp only at h
          split at h
          · rename_i st5 v heq5
            rw [heq5] at hE2
            cases hE2
          · rename_i st5 v heq5
            rw [heq5] at hE2
            cases hE2
          · rename_i st5 e heq5
            rw [heq5] at hE2
            cases hE2
          · rename_i st5 heq5
            simp only [heq5] at hE
            have hs5 := hs4.ranSuccess hE "expirationHttpsDomainStatus" (by decide)
            have hR := ReloadPrometheus_ran env
              (st5.setStatus "expirationHttpsDomainStatus" [successText, successColor])
            try dsimp only at h
            split at h
            · rename_i st6 e heq6
              cases h
              simp only [heq6] at hR
              exact ⟨(hs5.extends hR.1).setFail _, Or.inl ⟨_, rfl⟩⟩
            · rename_i st6 heq6
              cases h
              simp only [heq6] at hR
              exact ⟨hs5.ranSuccess hR "reloadPrometheusStatus" (by decide), Or.inl ⟨_, rfl⟩⟩

theorem StatusSound.two_elements {st : State} (hs : StatusSound st) (key op : String)
    (hop : stepOperation key = some op) :
    ∃ text color, st.setpStatusMap.lookup key = [text, color] := by
  rcases hs.2 key op hop with h | ⟨h, -, -⟩
  · exact ⟨failText, failColor, by simp [StatusMap.lookup, h]⟩
  · exact ⟨successText, successColor, by simp [StatusMap.lookup, h]⟩

theorem statusFont_two (text color : String) :
    statusFont [text, color] = some (fontTag color text) := rfl

/-- In a sound state every slice the notifier indexes has two elements, so
`markdownMessage` does not panic. -/
theorem markdownMessage_isSome {st : State} (hs : StatusSound st) (n : Nat) :
    ∃ content, markdownMessage n st.setpStatusMap = some content := by
  obtain ⟨a0, a1, ha⟩ := hs.two_elements "aliyunInitStatus" "AliyunInit" (by decide)
  obtain ⟨b0, b1, hb⟩ := hs.two_elements "aliyunDescribeDomainsStatus" "AliyunDescribeDomains" (by decide)
  obtain ⟨c0, c1, hc⟩ := hs.two_elements "aliyunDescribeDomainRecordsStatus" "AliyunDescribeDomainRecords" (by decide)
  obtain ⟨d0, d1, hd⟩ := hs.two_elements "tencentInitStatus" "TencentInit" (by decide)
  obtain ⟨e0, e1, he⟩ := hs.two_elements "tencentDescribeDomainsStatus" "TencentDescribeDomains" (by decide)
  obtain ⟨f0, f1, hf⟩ := hs.two_elements "tencentDescribeDomainRecordsStatus" "TencentDescribeDomainRecords" (by decide)
  obtain ⟨g0, g1, hg⟩ := hs.two_elements "expirationHttpsDomainStatus" "ExpirationHttpsDomain" (by decide)
  obtain ⟨h0, h1, hh⟩ := hs.two_elements "reloadPrometheusStatus" "ReloadPrometheus" (by decide)
  simp only [markdownMessage, ha, hb, hc, hd, he, hf, hg, hh, List.mapM_cons, List.mapM_nil,
    statusFont_two, Option.pure_def, Option.bind_eq_bind, Option.some_bind]
  exact ⟨_, rfl⟩

/-- In a sound state the deferred closure of `_main` calls the notifier once, with
the current count and status map, and leaves the outcome of the body as it is. -/
theorem main_of_mainBody (env : Env) (fuel : Nat) (st body : State) (ctl : Ctl)
    (h : mainBody env fuel st = some (body, ctl)) (hs : StatusSound st) :
    _main env fuel st =
      some (body.log (.notice body.httpsDomainSum body.setpStatusMap), ctl) := by
  obtain ⟨hsb, hctl⟩ := mainBody_sound env fuel st body ctl h hs
  obtain ⟨content, hcontent⟩ := markdownMessage_isSome hsb body.httpsDomainSum
  have hN : NoticeWeCom env (body.log (.notice body.httpsDomainSum
      body.setpStatusMap)).httpsDomainSum (body.log (.notice body.httpsDomainSum
      body.setpStatusMap)).setpStatusMap = .ok (env.sendNotice content) := by
    show NoticeWeCom env body.httpsDomainSum body.setpStatusMap = _
    simp [NoticeWeCom, hcontent]
  unfold _main
  rw [h]
  rcases hctl with ⟨err, rfl⟩ | ⟨e, rfl⟩
  · simp only [hN]
  · simp only [hN]

/-! ## Termination of the page loops -/

theorem aliyunDescribeDomainsLoop_terminates (env : Env) (n : Nat) :
    ∀ (p : Nat), pageEnds (env.aliyunDescribeDomains (p + n) 20) = true →
      ∀ st, ∃ r, ∀ fuel, n < fuel → aliyunDescribeDomainsLoop env fuel p st = some r := by
  induction n with
  | zero =>
    intro p hend st
    rw [Nat.add_zero] at hend
    rcases hpage : env.aliyunDescribeDomains p 20 with e | l
    · refine ⟨(st.log (.aliyunDomainsRequest p 20), some e), fun fuel hf => ?_⟩
      obtain ⟨f, rfl⟩ : ∃ f, fuel = f + 1 := ⟨fuel - 1, by omega⟩
      simp [aliyunDescribeDomainsLoop, hpage]
    · rw [hpage] at hend
      have hl : l.length = 0 := by
        cases l with
        | nil => rfl
        | cons a t => simp [pageEnds] at hend
      refine ⟨(st.log (.aliyunDomainsRequest p 20), none), fun fuel hf => ?_⟩
      obtain ⟨f, rfl⟩ : ∃ f, fuel = f + 1 := ⟨fuel - 1, by omega⟩
      simp [aliyunDescribeDomainsLoop, hpage, hl]
  | succ n ih =>
    intro p hend st
    rcases hpage : env.aliyunDescribeDomains p 20 with e | l
    · refine ⟨(st.log (.aliyunDomainsRequest p 20), some e), fun fuel hf => ?_⟩
      obtain ⟨f, rfl⟩ : ∃ f, fuel = f + 1 := ⟨fuel - 1, by omega⟩
      simp [aliyunDescribeDomainsLoop, hpage]
    · by_cases hl : l.length = 0
      · refine ⟨(st.log (.aliyunDomainsRequest p 20), none), fun fuel hf => ?_⟩
        obtain ⟨f, rfl⟩ : ∃ f, fuel = f + 1 := ⟨fuel - 1, by omega⟩
        simp [aliyunDescribeDomainsLoop, hpage, hl]
      · obtain ⟨r, hr⟩ := ih (p + 1) (by rwa [show p + 1 + n = p + (n + 1) by omega])
          { (st.log (.aliyunDomainsRequest p 20)) with
            aliyunDomainSlice := appendNames st.aliyunDomainSlice l }
        refine ⟨r, fun fuel hf => ?_⟩
        obtain ⟨f, rfl⟩ : ∃ f, fuel = f + 1 := ⟨fuel - 1, by omega⟩
        simp only [aliyunDescribeDomainsLoop, hpage, hl, if_false]
        exact hr f (by omega)

theorem aliyunRecordsInnerLoop_terminates (env : Env) (domainName : String) (n : Nat) :
    ∀ (p : Nat), pageEnds (env.aliyunDescribeDomainRecords domainName (p + n) 20) = true →
      ∀ st, ∃ r, ∀ fuel, n < fuel →
        aliyunRecordsInnerLoop env domainName fuel p st = some r := by
  induction n with
  | zero =>
    intro p hend st
    rw [Nat.add_zero] at hend
    rcases hpage : env.aliyunDescribeDomainRecords domainName p 20 with e | l
    · refine ⟨(st.log (.aliyunRecordsRequest domainName p 20), some e), fun fuel hf => ?_⟩
      obtain ⟨f, rfl⟩ : ∃ f, fuel = f + 1 := ⟨fuel - 1, by omega⟩
      simp [aliyunRecordsInnerLoop, hpage]
    · rw [hpage] at hend
      have hl : l.length = 0 := by
        cases l with
        | nil => rfl
        | cons a t => simp [pageEnds] at hend
      refine ⟨(st.log (.aliyunRecordsRequest domainName p 20), none), fun fuel hf => ?_⟩
      obtain ⟨f, rfl⟩ : ∃ f, fuel = f + 1 := ⟨fuel - 1, by omega⟩
      simp [aliyunRecordsInnerLoop, hpage, hl]
  | succ n ih =>
    intro p hend st
    rcases hpage : env.aliyunDescribeDomainRecords domainName p 20 with e | l
    · refine ⟨(st.log (.aliyunRecordsRequest domainName p 20), some e), fun fuel hf => ?_⟩
      obtain ⟨f, rfl⟩ : ∃ f, fuel = f + 1 := ⟨fuel - 1, by omega⟩
      simp [aliyunRecordsInnerLoop, hpage]
    · by_cases hl : l.length = 0
      · refine ⟨(st.log (.aliyunRecordsRequest domainName p 20), none), fun fuel hf => ?_⟩
        obtain ⟨f, rfl⟩ : ∃ f, fuel = f + 1 := ⟨fuel - 1, by omega⟩
        simp [aliyunRecordsInnerLoop, hpage, hl]
      · obtain ⟨r, hr⟩ := ih (p + 1) (by rwa [show p + 1 + n = p + (n + 1) by omega])
          (aliyunRecordLoop env l (st.log (.aliyunRecordsRequest domainName p 20)))
        refine ⟨r, fun fuel hf => ?_⟩
        obtain ⟨f, rfl⟩ : ∃ f, fuel = f + 1 := ⟨fuel - 1, by omega⟩
        simp only [aliyunRecordsInnerLoop, hpage, hl, if_false]
        exact hr f (by omega)

theorem aliyunRecordsOuterLoop_terminates (env : Env)
    (hp : ∀ domainName, ∃ k, 1 ≤ k ∧
      pageEnds (env.aliyunDescribeDomainRecords domainName k 20) = true)
    (domains : List String) :
    ∃ N, ∀ st, ∃ r, ∀ fuel, N ≤ fuel → aliyunRecordsOuterLoop env fuel domains st = some r := by
  induction domains with
  | nil => exact ⟨0, fun st => ⟨(st, none), fun fuel _ => rfl⟩⟩
  | cons d rest ih =>
    obtain ⟨N, hN⟩ := ih
    obtain ⟨k, hk, hend⟩ := hp d
    refine ⟨max N k, fun st => ?_⟩
    obtain ⟨r, hr⟩ := aliyunRecordsInnerLoop_terminates env d (k - 1) 1
      (by rwa [show 1 + (k - 1) = k by omega]) st
    rcases r with ⟨st1, _ | e⟩
    · obtain ⟨r2, hr2⟩ := hN st1
      refine ⟨r2, fun fuel hf => ?_⟩
      simp only [aliyunRecordsOuterLoop, hr fuel (by omega)]
      exact hr2 fuel (by omega)
    · refine ⟨(st1, some e), fun fuel hf => ?_⟩
      simp only [aliyunRecordsOuterLoop, hr fuel (by omega)]

theorem DescribeDomains_terminates (env : Env)
    (hp : ∃ k, 1 ≤ k ∧ pageEnds (env.aliyunDescribeDomains k 20) = true) :
    ∃ N, ∀ st, ∃ r, ∀ fuel, N ≤ fuel → DescribeDomains env fuel st = some r := by
  obtain ⟨k, hk, hend⟩ := hp
  refine ⟨k, fun st => ?_⟩
  obtain ⟨r, hr⟩ := aliyunDescribeDomainsLoop_terminates env (k - 1) 1
    (by rwa [show 1 + (k - 1) = k by omega]) (st.log (.call "AliyunDescribeDomains"))
  rcases r with ⟨st1, _ | e⟩
  · rcases hT : TencentDescribeDomains env ((st1.log (.ret "AliyunDescribeDomains" none)).setStatus
      "aliyunDescribeDomainsStatus" [successText, successColor]) with ⟨st2, _ | e2⟩
    · refine ⟨(st2.setStatus "tencentDescribeDomainsStatus" [successText, successColor],
        .ret none), fun fuel hf => ?_⟩
      simp only [DescribeDomains, AliyunDescribeDomains, hr fuel (by omega), hT]
    · refine ⟨(st2.setStatus "tencentDescribeDomainsStatus" [failText, failColor],
        .panic (.err e2)), fun fuel hf => ?_⟩
      simp only [DescribeDomains, AliyunDescribeDomains, hr fuel (by omega), hT]
  · refine ⟨((st1.log (.ret "AliyunDescribeDomains" (some e))).setStatus
      "aliyunDescribeDomainsStatus" [failText, failColor], .panic (.err e)), fun fuel hf => ?_⟩
    simp only [DescribeDomains, AliyunDescribeDomains, hr fuel (by omega)]

theorem DescribeDomainRecords_terminates (env : Env)
    (hp : ∀ domainName, ∃ k, 1 ≤ k ∧
      pageEnds (env.aliyunDescribeDomainRecords domainName k 20) = true)
    (st : State) :
    ∃ N r, ∀ fuel, N ≤ fuel → DescribeDomainRecords env fuel st = some r := by
  rcases hopen : env.createDomainsTxt with _ | e
  · obtain ⟨N, hN⟩ := aliyunRecordsOuterLoop_terminates env hp st.aliyunDomainSlice
    obtain ⟨r, hr⟩ := hN (({ st with domainsTxt := "" } : State).log
      (.call "AliyunDescribeDomainRecords"))
    rcases r with ⟨st1, _ | e⟩
    · rcases hT : TencentDescribeDomainRecords env
        ((st1.log (.ret "AliyunDescribeDomainRecords" none)).setStatus
          "aliyunDescribeDomainRecordsStatus" [successText, successColor]).tencentDomainSlice
        ((st1.log (.ret "AliyunDescribeDomainRecords" none)).setStatus
          "aliyunDescribeDomainRecordsStatus" [successText, successColor]) with ⟨st2, _ | e2⟩
      · refine ⟨N, (st2.setStatus "tencentDescribeDomainRecordsStatus"
          [successText, successColor], none), fun fuel hf => ?_⟩
        simp only [DescribeDomainRecords, AliyunDescribeDomainRecords, hopen, hr fuel hf, hT]
      · refine ⟨N, (st2.setStatus "tencentDescribeDomainRecordsStatus"
          [failText, failColor], some e2), fun fuel hf => ?_⟩
        simp only [DescribeDomainRecords, AliyunDescribeDomainRecords, hopen, hr fuel hf, hT]
    · refine ⟨N, ((st1.log (.ret "AliyunDescribeDomainRecords" (some e))).setStatus
        "aliyunDescribeDomainRecordsStatus" [failText, failColor], some e), fun fuel hf => ?_⟩
      simp only [DescribeDomainRecords, AliyunDescribeDomainRecords, hopen, hr fuel hf]
  · exact ⟨0, (st, some e), fun fuel _ => by simp only [DescribeDomainRecords, hopen]⟩

/-- When both Aliyun listings end, the body of `_main` returns: there is an
iteration bound from which on it gives one and the same result. -/
theorem mainBody_terminates (env : Env) (hp : PagingEnds env) (st : State) :
    ∃ N r, ∀ fuel, N ≤ fuel → mainBody env fuel st = some r := by
  obtain ⟨N1, hN1⟩ := DescribeDomains_terminates env hp.1
  rcases hG : GetConfig env st with ⟨st1, _ | e⟩
  swap
  · exact ⟨0, (st1, .ret (some e)), fun fuel _ => by simp only [mainBody, hG]⟩
  rcases hC : ClientInit env st1 with ⟨st2, _ | e⟩
  swap
  · exact ⟨0, (st2.setStatus "initStatus" [failText, failColor], .ret (some e)),
      fun fuel _ => by simp only [mainBody, hG, hC]⟩
  obtain ⟨r1, hr1⟩ := hN1 (st2.setStatus "initStatus" [successText, successColor])
  rcases r1 with ⟨st3, (_ | e) | v | v⟩
  · obtain ⟨N2, r2, hr2⟩ := DescribeDomainRecords_terminates env hp.2
      (st3.setStatus "describeDomainsStatus" [successText, successColor])
    rcases r2 with ⟨st4, _ | e⟩
    · rcases hE : ExpirationHttpsDomain env
        (st4.setStatus "describeDomainRecordsStatus" [successText, successColor])
        with ⟨st5, (_ | e) | v | v⟩
      · rcases hR : ReloadPrometheus env
          (st5.setStatus "expirationHttpsDomainStatus" [successText, successColor])
          with ⟨st6, _ | e⟩
        · exact ⟨max N1 N2, (st6.setStatus "reloadPrometheusStatus"
            [successText, successColor], .ret none), fun fuel hf => by
            simp only [mainBody, hG, hC, hr1 fuel (by omega), hr2 fuel (by omega), hE, hR]⟩
        · exact ⟨max N1 N2, (st6.setStatus "reloadPrometheusStatus"
            [failText, failColor], .ret (some e)), fun fuel hf => by
            simp only [mainBody, hG, hC, hr1 fuel (by omega), hr2 fuel (by omega), hE, hR]⟩
      · exact ⟨max N1 N2, (st5.setStatus "expirationHttpsDomainStatus"
          [failText, failColor], .ret (some e)), fun fuel hf => by
          simp only [mainBody, hG, hC, hr1 fuel (by omega), hr2 fuel (by omega), hE]⟩
      · exact ⟨max N1 N2, (st5, .panic v), fun fuel hf => by
          simp only [mainBody, hG, hC, hr1 fuel (by omega), hr2 fuel (by omega), hE]⟩
      · exact ⟨max N1 N2, (st5, .crash v), fun fuel hf => by
          simp only [mainBody, hG, hC, hr1 fuel (by omega), hr2 fuel (by omega), hE]⟩
    · exact ⟨max N1 N2, (st4.setStatus "describeDomainRecordsStatus"
        [failText, failColor], .ret (some e)), fun fuel hf => by
        simp only [mainBody, hG, hC, hr1 fuel (by omega), hr2 fuel (by omega)]⟩
  · exact ⟨N1, (st3.setStatus "describeDomainsStatus" [failText, failColor],
      .ret (some e)), fun fuel hf => by simp only [mainBody, hG, hC, hr1 fuel hf]⟩
  · exact ⟨N1, (st3, .panic v), fun fuel hf => by simp only [mainBody, hG, hC, hr1 fuel hf]⟩
  · exact ⟨N1, (st3, .crash v), fun fuel hf => by simp only [mainBody, hG, hC, hr1 fuel hf]⟩

/-! ## The body of `_main` does not depend on the outcome of the notifier -/

theorem aliyunDescribeDomainsLoop_sendNotice (env : Env) (f : String → Option GoError) :
    ∀ (fuel p : Nat) (st : State),
      aliyunDescribeDomainsLoop { env with sendNotice := f } fuel p st =
        aliyunDescribeDomainsLoop env fuel p st := by
  intro fuel
  induction fuel with
  | zero => intro p st; rfl
  | succ n ih => intro p st; simp only [aliyunDescribeDomainsLoop, ih]

theorem aliyunRecordLoop_sendNotice (env : Env) (f : String → Option GoError)
    (records : List AliyunRecord) (st : State) :
    aliyunRecordLoop { env with sendNotice := f } records st =
      aliyunRecordLoop env records st := rfl

theorem aliyunRecordsInnerLoop_sendNotice (env : Env) (f : String → Option GoError)
    (domainName : String) :
    ∀ (fuel p : Nat) (st : State),
      aliyunRecordsInnerLoop { env with sendNotice := f } domainName fuel p st =
        aliyunRecordsInnerLoop env domainName fuel p st := by
  intro fuel
  induction fuel with
  | zero => intro p st; rfl
  | succ n ih =>
    intro p st
    simp only [aliyunRecordsInnerLoop, ih, aliyunRecordLoop_sendNotice]

theorem aliyunRecordsOuterLoop_sendNotice (env : Env) (f : String → Option GoError)
    (fuel : Nat) :
    ∀ (domains : List String) (st : State),
      aliyunRecordsOuterLoop { env with sendNotice := f } fuel domains st =
        aliyunRecordsOuterLoop env fuel domains st := by
  intro domains
  induction domains with
  | nil => intro st; rfl
  | cons d rest ih =>
    intro st
    simp only [aliyunRecordsOuterLoop, ih, aliyunRecordsInnerLoop_sendNotice]

theorem tencentRecordsLoop_sendNotice (env : Env) (f : String → Option GoError) :
    ∀ (domains : List String) (st : State) (err : Option GoError),
      tencentRecordsLoop { env with sendNotice := f } domains st err =
        tencentRecordsLoop env domains st err := by
  intro domains
  induction domains with
  | nil => intro st err; rfl
  | cons d rest ih =>
    intro st err
    have hloop : ∀ records acc, tencentRecordLoop { env with sendNotice := f } d records acc =
        tencentRecordLoop env d records acc := fun _ _ => rfl
    simp only [tencentRecordsLoop, ih, hloop]

theorem runProbeTasks_sendNotice (env : Env) (f : String → Option GoError) :
    ∀ (order : List (Nat × String)) (shared : ProbeShared),
      runProbeTasks { env with sendNotice := f } order shared =
        runProbeTasks env order shared := by
  intro order
  induction order with
  | nil => intro shared; rfl
  | cons t rest ih =>
    intro shared
    have hp : processDomain { env with sendNotice := f } t shared =
        processDomain env t shared := rfl
    simp only [runProbeTasks, ih, hp]

theorem mainBody_sendNotice (env : Env) (f : String → Option GoError) (fuel : Nat)
    (st : State) :
    mainBody { env with sendNotice := f } fuel st = mainBody env fuel st := by
  have hG : ∀ st, GetConfig { env with sendNotice := f } st = GetConfig env st := fun _ => rfl
  have hC : ∀ st, ClientInit { env with sendNotice := f } st = ClientInit env st := fun _ => rfl
  have hT : ∀ st, TencentDescribeDomains { env with sendNotice := f } st =
      TencentDescribeDomains env st := fun _ => rfl
  have hD : ∀ st, DescribeDomains { env with sendNotice := f } fuel st =
      DescribeDomains env fuel st := by
    intro st
    simp only [DescribeDomains, AliyunDescribeDomains, aliyunDescribeDomainsLoop_sendNotice, hT]
  have hR : ∀ st, DescribeDomainRecords { env with sendNotice := f } fuel st =
      DescribeDomainRecords env fuel st := by
    intro st
    simp only [DescribeDomainRecords, AliyunDescribeDomainRecords, TencentDescribeDomainRecords,
      aliyunRecordsOuterLoop_sendNotice, tencentRecordsLoop_sendNotice]
  have hE : ∀ st, ExpirationHttpsDomain { env with sendNotice := f } st =
      ExpirationHttpsDomain env st := by
    intro st
    simp only [ExpirationHttpsDomain, runProbeTasks_sendNotice]
  have hP : ∀ st, ReloadPrometheus { env with sendNotice := f } st =
      ReloadPrometheus env st := fun _ => rfl
  simp only [mainBody, hG, hC, hD, hR, hE, hP]

/-! ## The notifier and the step statuses -/

theorem quietEnv_pagingEnds : PagingEnds quietEnv :=
  ⟨⟨1, Nat.le_refl 1, rfl⟩, fun _ => ⟨1, Nat.le_refl 1, rfl⟩⟩

/-- C6: in every run of `_main` (the configuration fails to load, a client fails
to initialise, a domain listing fails and panics, the record listing fails,
probing or the reload fails, or all succeed; the Aliyun listings being finite),
the body calls no notifier, then `NoticeWeCom` is called exactly once, as the last
event, with the `httpsDomainSum` and status map of that moment; `_main` ends as
its body ended (a returned error, or the panic of `DescribeDomains`), and the
outcome of the notifier changes neither the final state nor that result. -/
theorem C6_notifier_called_once_at_the_end (env : Env)
    (domainsTxt httpsdomainTxt templateYml : String) (hp : PagingEnds env) :
    ∃ N body ctl,
      (∀ fuel, N ≤ fuel →
        mainBody env fuel (init (start domainsTxt httpsdomainTxt templateYml)) =
          some (body, ctl)) ∧
      (∀ fuel, N ≤ fuel →
        ∃ final, _main env fuel (init (start domainsTxt httpsdomainTxt templateYml)) =
            some (final, ctl) ∧
          final.trace = body.trace ++ [.notice final.httpsDomainSum final.setpStatusMap] ∧
          final.httpsDomainSum = body.httpsDomainSum ∧
          final.setpStatusMap = body.setpStatusMap ∧
          (final.trace.filter Event.isNotice).length = 1) ∧
      (∀ e ∈ body.trace, e.isNotice = false) ∧
      ((∃ err, ctl = .ret err) ∨ ∃ e, ctl = .panic (.err e)) ∧
      (∀ (sendNotice : String → Option GoError) fuel, N ≤ fuel →
        _main { env with sendNotice := sendNotice } fuel
            (init (start domainsTxt httpsdomainTxt templateYml)) =
          _main env fuel (init (start domainsTxt httpsdomainTxt templateYml))) := by
  have hs0 : StatusSound (init (start domainsTxt httpsdomainTxt templateYml)) :=
    statusSound_init _ rfl
  obtain ⟨N, ⟨body, ctl⟩, hN⟩ := mainBody_terminates env hp
    (init (start domainsTxt httpsdomainTxt templateYml))
  obtain ⟨hsb, hctl⟩ := mainBody_sound env N _ body ctl (hN N (Nat.le_refl N)) hs0
  refine ⟨N, body, ctl, hN, ?_, hsb.1, hctl, ?_⟩
  · intro fuel hf
    refine ⟨_, main_of_mainBody env fuel _ body ctl (hN fuel hf) hs0, rfl, rfl, rfl, ?_⟩
    have hnone : body.trace.filter Event.isNotice = [] := by
      rw [List.filter_eq_nil_iff]
      intro e he
      simp [hsb.1 e he]
    simp [State.log, List.filter_append, hnone, Event.isNotice]
  · intro sendNotice fuel hf
    rw [main_of_mainBody env fuel _ body ctl (hN fuel hf) hs0,
      main_of_mainBody { env with sendNotice := sendNotice } fuel _ body ctl
        (by rw [mainBody_sendNotice]; exact hN fuel hf) hs0]

theorem C6_notifier_called_once_at_the_end_witness :
    PagingEnds quietEnv ∧
    ∃ N body ctl,
      (∀ fuel, N ≤ fuel →
        mainBody quietEnv fuel (init (start "" "" "")) = some (body, ctl)) ∧
      (∀ fuel, N ≤ fuel →
        ∃ final, _main quietEnv fuel (init (start "" "" "")) = some (final, ctl) ∧
          final.trace = body.trace ++ [.notice final.httpsDomainSum final.setpStatusMap] ∧
          final.httpsDomainSum = body.httpsDomainSum ∧
          final.setpStatusMap = body.setpStatusMap ∧
          (final.trace.filter Event.isNotice).length = 1) ∧
      (∀ e ∈ body.trace, e.isNotice = false) ∧
      ((∃ err, ctl = .ret err) ∨ ∃ e, ctl = .panic (.err e)) ∧
      (∀ (sendNotice : String → Option GoError) fuel, N ≤ fuel →
        _main { quietEnv with sendNotice := sendNotice } fuel (init (start "" "" "")) =
          _main quietEnv fuel (init (start "" "" ""))) :=
  ⟨quietEnv_pagingEnds,
    C6_notifier_called_once_at_the_end quietEnv "" "" "" quietEnv_pagingEnds⟩

theorem stepOperation_of_mem {key : String} (h : key ∈ stepNames) :
    ∃ op, stepOperation key = some op := by
  simp only [stepNames, List.mem_cons, List.mem_singleton, List.not_mem_nil, or_false] at h
  rcases h with rfl | rfl | rfl | rfl | rfl | rfl | rfl | rfl <;> exact ⟨_, rfl⟩

/-- C10: after `init` each of the eight step names the notifier reads is bound to
the two-element failure value; and in every run of `_main` (the Aliyun listings
being finite), at the moment the notifier is called, each of these steps is
reported either as failed or as done, it is reported as done only if its
operation was entered and returned nil before, so a step whose operation did not
return nil is reported as failed; every slice the notifier indexes has exactly
two elements, and building the message does not panic. -/
theorem C10_step_statuses_at_notification (env : Env)
    (domainsTxt httpsdomainTxt templateYml : String) :
    (∀ key ∈ stepNames,
      (init (start domainsTxt httpsdomainTxt templateYml)).setpStatusMap key =
        some ["执行失败", "red"]) ∧
    (PagingEnds env →
      ∃ N final ctl pre sum map,
        (∀ fuel, N ≤ fuel →
          _main env fuel (init (start domainsTxt httpsdomainTxt templateYml)) =
            some (final, ctl)) ∧
        final.trace = pre ++ [.notice sum map] ∧
        (∀ e ∈ pre, e.isNotice = false) ∧
        (∀ key ∈ stepNames, ∃ op, stepOperation key = some op ∧
          (map key = some [failText, failColor] ∨
            map key = some [successText, successColor]) ∧
          (map key = some [successText, successColor] →
            Event.call op ∈ pre ∧ Event.ret op none ∈ pre) ∧
          (Event.ret op none ∉ pre → map key = some [failText, failColor]) ∧
          (map.lookup key).length = 2) ∧
        ∃ content, markdownMessage sum map = some content) := by
  refine ⟨?_, ?_⟩
  · intro key hkey
    simp only [stepNames, List.mem_cons, List.mem_singleton, List.not_mem_nil, or_false] at hkey
    rcases hkey with rfl | rfl | rfl | rfl | rfl | rfl | rfl | rfl <;>
      simp [init, State.setStatus, StatusMap.set]
  · intro hp
    have hs0 : StatusSound (init (start domainsTxt httpsdomainTxt templateYml)) :=
      statusSound_init _ rfl
    obtain ⟨N, ⟨body, ctl⟩, hN⟩ := mainBody_terminates env hp
      (init (start domainsTxt httpsdomainTxt templateYml))
    obtain ⟨hsb, -⟩ := mainBody_sound env N _ body ctl (hN N (Nat.le_refl N)) hs0
    refine ⟨N, body.log (.notice body.httpsDomainSum body.setpStatusMap), ctl, body.trace,
      body.httpsDomainSum, body.setpStatusMap,
      fun fuel hf => main_of_mainBody env fuel _ body ctl (hN fuel hf) hs0, rfl, hsb.1, ?_,
      markdownMessage_isSome hsb _⟩
    intro key hkey
    obtain ⟨op, hop⟩ := stepOperation_of_mem hkey
    have hne : ([failText, failColor] : List String) ≠ [successText, successColor] := by
      decide
    refine ⟨op, hop, ?_, ?_, ?_, ?_⟩
    · rcases hsb.2 key op hop with h | ⟨h, -, -⟩
      · exact Or.inl h
      · exact Or.inr h
    · intro hsucc
      rcases hsb.2 key op hop with h | ⟨-, hc, hr⟩
      · rw [h] at hsucc
        exact absurd (Option.some.inj hsucc) hne
      · exact ⟨hc, hr⟩
    · intro hnot
      rcases hsb.2 key op hop with h | ⟨-, -, hr⟩
      · exact h
      · exact absurd hr hnot
    · obtain ⟨text, color, h⟩ := hsb.two_elements key op hop
      rw [h]
      rfl

theorem C10_step_statuses_at_notification_witness :
    PagingEnds quietEnv ∧
    ∃ N final ctl pre sum map,
      (∀ fuel, N ≤ fuel → _main quietEnv fuel (init (start "" "" "")) = some (final, ctl)) ∧
      final.trace = pre ++ [.notice sum map] ∧
      (∀ e ∈ pre, e.isNotice = false) ∧
      (∀ key ∈ stepNames, ∃ op, stepOperation key = some op ∧
        (map key = some [failText, failColor] ∨
          map key = some [successText, successColor]) ∧
        (map key = some [successText, successColor] →
          Event.call op ∈ pre ∧ Event.ret op none ∈ pre) ∧
        (Event.ret op none ∉ pre → map key = some [failText, failColor]) ∧
        (map.lookup key).length = 2) ∧
      ∃ content, markdownMessage sum map = some content :=
  ⟨quietEnv_pagingEnds,
    (C10_step_statuses_at_notification quietEnv "" "" "").2 quietEnv_pagingEnds⟩

/-! ## Running the record collection twice -/

/-- C11: for every sequence of fetched records, running the record loop a second
time over the same records, from the state the first run left, gives the same set
of candidate hostnames as the first run alone (the list itself holds every kept
hostname once more). -/
theorem C11_collection_twice_same_candidate_set (env : Env) (st : State)
    (aliyunRecords : List AliyunRecord) (tencentRecords : List TencentRecord)
    (domainName : String) (err : Option GoError) :
    (∀ host,
      host ∈ (aliyunRecordLoop env aliyunRecords
          (aliyunRecordLoop env aliyunRecords st)).recordSlice ↔
        host ∈ (aliyunRecordLoop env aliyunRecords st).recordSlice) ∧
    (∀ host,
      host ∈ (tencentRecordLoop env domainName tencentRecords
          (tencentRecordLoop env domainName tencentRecords (st, err))).1.recordSlice ↔
        host ∈ (tencentRecordLoop env domainName tencentRecords (st, err)).1.recordSlice) ∧
    (aliyunRecordLoop env aliyunRecords
        (aliyunRecordLoop env aliyunRecords st)).recordSlice.toFinset =
      (aliyunRecordLoop env aliyunRecords st).recordSlice.toFinset ∧
    (tencentRecordLoop env domainName tencentRecords
        (tencentRecordLoop env domainName tencentRecords (st, err))).1.recordSlice.toFinset =
      (tencentRecordLoop env domainName tencentRecords (st, err)).1.recordSlice.toFinset := by
  have hA : ∀ host,
      host ∈ (aliyunRecordLoop env aliyunRecords
          (aliyunRecordLoop env aliyunRecords st)).recordSlice ↔
        host ∈ (aliyunRecordLoop env aliyunRecords st).recordSlice := by
    intro host
    rw [aliyunRecordLoop_recordSlice env aliyunRecords (aliyunRecordLoop env aliyunRecords st),
      aliyunRecordLoop_recordSlice env aliyunRecords st]
    simp only [List.mem_append]
    tauto
  have hT : ∀ host,
      host ∈ (tencentRecordLoop env domainName tencentRecords
          (tencentRecordLoop env domainName tencentRecords (st, err))).1.recordSlice ↔
        host ∈ (tencentRecordLoop env domainName tencentRecords (st, err)).1.recordSlice := by
    intro host
    rw [tencentRecordLoop_recordSlice env domainName tencentRecords
        (tencentRecordLoop env domainName tencentRecords (st, err)),
      tencentRecordLoop_recordSlice env domainName tencentRecords (st, err)]
    simp only [List.mem_append]
    tauto
  refine ⟨hA, hT, ?_, ?_⟩
  · ext host
    simp only [List.mem_toFinset]
    exact hA host
  · ext host
    simp only [List.mem_toFinset]
    exact hT host

/-! ## Whole tokens -/

theorem splitOnP_append_sep {α : Type} (p : α → Bool) (a : List α) (sep : α) (hsep : p sep = true)
    (rest : List α) :
    (a ++ sep :: rest).splitOnP p = a.splitOnP p ++ rest.splitOnP p := by
  induction a with
  | nil => simp [List.splitOnP_cons, hsep, List.splitOnP_nil]
  | cons x xs ih =>
    rw [List.cons_append, List.splitOnP_cons, List.splitOnP_cons, ih]
    by_cases hx : p x = true
    · simp [hx]
    · simp only [hx, if_false]
      cases hsplit : List.splitOnP p xs with
      | nil => exact absurd hsplit (List.splitOnP_ne_nil p xs)
      | cons hd tl => rfl

theorem token_whole_label (label tok : String) (htok : ∀ c ∈ tok.data, ¬ isLabelSeparator c = true)
    (h : label = tok) : tok ∈ labelTokens label := by
  subst h
  unfold labelTokens
  rw [List.splitOnP_eq_single isLabelSeparator label.data htok]
  simp

theorem token_at_start (label tok : String) (s : Char) (hs : isLabelSeparator s = true)
    (htok : ∀ c ∈ tok.data, ¬ isLabelSeparator c = true)
    (h : (tok.data ++ [s]) <+: label.data) : tok ∈ labelTokens label := by
  obtain ⟨b, hb⟩ := h
  unfold labelTokens
  rw [← hb, List.append_assoc, List.singleton_append, List.splitOnP_first isLabelSeparator tok.data htok s hs]
  simp

theorem token_at_end (label tok : String) (s : Char) (hs : isLabelSeparator s = true)
    (htok : ∀ c ∈ tok.data, ¬ isLabelSeparator c = true)
    (h : (s :: tok.data) <:+ label.data) : tok ∈ labelTokens label := by
  obtain ⟨a, ha⟩ := h
  unfold labelTokens
  rw [← ha, splitOnP_append_sep _ a s hs, List.splitOnP_eq_single isLabelSeparator tok.data htok]
  simp

theorem token_between_separators (label tok : String) (s₁ s₂ : Char) (hs₁ : isLabelSeparator s₁ = true)
    (hs₂ : isLabelSeparator s₂ = true)
    (htok : ∀ c ∈ tok.data, ¬ isLabelSeparator c = true)
    (h : (s₁ :: (tok.data ++ [s₂])) <:+: label.data) : tok ∈ labelTokens label := by
  obtain ⟨a, b, hab⟩ := h
  unfold labelTokens
  have hshape : label.data = a ++ s₁ :: (tok.data ++ s₂ :: b) := by
    rw [← hab]
    simp
  rw [hshape, splitOnP_append_sep _ a s₁ hs₁, List.splitOnP_first isLabelSeparator tok.data htok s₂ hs₂]
  simp

/-- C12: for every record with type `A` or `CNAME`, status `ENABLE` and a label
other than `@`, if none of the tokens obtained by splitting the label at every
`.` and `-` is `test` or `dev`, both filters accept the record; so the labels
`testing-portal`, `latest` and `devops` are accepted. -/
theorem C12_accepted_when_no_token_is_test_or_dev :
    (∀ (type status label zone : String),
      (type = "A" ∨ type = "CNAME") → status = "ENABLE" → label ≠ "@" →
      (∀ tok ∈ labelTokens label, tok ≠ "test" ∧ tok ≠ "dev") →
      aliyunRecordFilter ⟨label, type, status, zone⟩ = true ∧
        tencentRecordFilter ⟨label, type, status⟩ = true) ∧
    (aliyunRecordFilter ⟨"testing-portal", "A", "ENABLE", "example.com"⟩ = true ∧
      tencentRecordFilter ⟨"testing-portal", "A", "ENABLE"⟩ = true) ∧
    (aliyunRecordFilter ⟨"latest", "A", "ENABLE", "example.com"⟩ = true ∧
      tencentRecordFilter ⟨"latest", "A", "ENABLE"⟩ = true) ∧
    (aliyunRecordFilter ⟨"devops", "A", "ENABLE", "example.com"⟩ = true ∧
      tencentRecordFilter ⟨"devops", "A", "ENABLE"⟩ = true) := by
  refine ⟨?_, by decide, by decide, by decide⟩
  intro type status label zone htype hstatus hat hno
  have htest : "test" ∉ labelTokens label := fun h => (hno "test" h).1 rfl
  have hdev : "dev" ∉ labelTokens label := fun h => (hno "dev" h).2 rfl
  have hsix : sixRules type status label := by
    refine ⟨htype, hstatus, ⟨hat, ?_, ?_⟩, ?_, ?_, ?_⟩
    · intro h
      exact htest (token_whole_label label "test" (by decide) h)
    · intro h
      exact hdev (token_whole_label label "dev" (by decide) h)
    · intro p hp hinf
      simp only [List.mem_cons, List.mem_singleton, List.not_mem_nil, or_false] at hp
      rcases hp with rfl | rfl | rfl | rfl | rfl | rfl
      · exact htest (token_between_separators label "test" '.' '-' rfl rfl (by decide) hinf)
      · exact hdev (token_between_separators label "dev" '.' '-' rfl rfl (by decide) hinf)
      · exact htest (token_between_separators label "test" '-' '-' rfl rfl (by decide) hinf)
      · exact hdev (token_between_separators label "dev" '-' '-' rfl rfl (by decide) hinf)
      · exact htest (token_between_separators label "test" '-' '.' rfl rfl (by decide) hinf)
      · exact hdev (token_between_separators label "dev" '-' '.' rfl rfl (by decide) hinf)
    · intro p hp hsuf
      simp only [List.mem_cons, List.mem_singleton, List.not_mem_nil, or_false] at hp
      rcases hp with rfl | rfl
      · exact htest (token_at_end label "test" '-' rfl (by decide) hsuf)
      · exact hdev (token_at_end label "dev" '-' rfl (by decide) hsuf)
    · intro p hp hpre
      simp only [List.mem_cons, List.mem_singleton, List.not_mem_nil, or_false] at hp
      rcases hp with rfl | rfl | rfl | rfl
      · exact htest (token_at_start label "test" '.' rfl (by decide) hpre)
      · exact htest (token_at_start label "test" '-' rfl (by decide) hpre)
      · exact hdev (token_at_start label "dev" '.' rfl (by decide) hpre)
      · exact hdev (token_at_start label "dev" '-' rfl (by decide) hpre)
  exact ⟨(aliyunRecordFilter_iff ⟨label, type, status, zone⟩).mpr hsix,
    (tencentRecordFilter_iff ⟨label, type, status⟩).mpr hsix⟩

theorem C12_accepted_when_no_token_is_test_or_dev_witness :
    (("A" : String) = "A" ∨ ("A" : String) = "CNAME") ∧ ("ENABLE" : String) = "ENABLE" ∧
    ("testing-portal" : String) ≠ "@" ∧
    (∀ tok ∈ labelTokens "testing-portal", tok ≠ "test" ∧ tok ≠ "dev") ∧
    (aliyunRecordFilter ⟨"testing-portal", "A", "ENABLE", "example.com"⟩ = true ∧
      tencentRecordFilter ⟨"testing-portal", "A", "ENABLE"⟩ = true) :=
  ⟨Or.inl rfl, rfl, by decide, by decide,
    C12_accepted_when_no_token_is_test_or_dev.1 "A" "ENABLE" "testing-portal" "example.com"
      (Or.inl rfl) rfl (by decide) (by decide)⟩

/-! ## File failures in the probing stage -/

/-- C13 (the code at the failing inputs): when `ExpirationHttpsDomain` cannot open
`httpsdomain.txt`, `aliyun-tencent-httpsdomain.yml` or `domains.txt`, its
`return _err` returns the named result, which is nil: the function returns nil,
`_main` records `expirationHttpsDomainStatus` as done, goes on to
`ReloadPrometheus` and returns nil, and that is what the notifier is given. -/
theorem C13_open_failure_returns_nil :
    ((ExpirationHttpsDomain httpsdomainTxtDeniedEnv (init (start "" "" ""))).2 = .ret none ∧
      (ExpirationHttpsDomain templateYmlDeniedEnv (init (start "" "" ""))).2 = .ret none ∧
      (ExpirationHttpsDomain domainsTxtDeniedEnv (init (start "" "" ""))).2 = .ret none) ∧
    ((_main httpsdomainTxtDeniedEnv 1 (init (start "" "" ""))).map
        (fun r => (r.2, noticedStatus r.1.trace "expirationHttpsDomainStatus",
          (calledFns r.1.trace).getLast?)) =
      some (.ret none, [[successText, successColor]], some "ReloadPrometheus")) ∧
    ((_main templateYmlDeniedEnv 1 (init (start "" "" ""))).map
        (fun r => (r.2, noticedStatus r.1.trace "expirationHttpsDomainStatus",
          (calledFns r.1.trace).getLast?)) =
      some (.ret none, [[successText, successColor]], some "ReloadPrometheus")) ∧
    ((_main domainsTxtDeniedEnv 1 (init (start "" "" ""))).map
        (fun r => (r.2, noticedStatus r.1.trace "expirationHttpsDomainStatus",
          (calledFns r.1.trace).getLast?)) =
      some (.ret none, [[successText, successColor]], some "ReloadPrometheus")) := by
  refine ⟨⟨by decide, by decide, by decide⟩, by decide, by decide, by decide⟩

end HttpsDomain
